import Mathlib

set_option maxHeartbeats 1000000

/-!
Shallow embedding of `scripts/download_resources.py`, a single-file tool that
crawls Google Sites pages for Drive file / Doc identifiers and downloads them.
Pure helpers (`slugify`, `get_confirm_token`, `infer_extension`,
`extract_filename`, the `re.findall` extraction patterns) are translated as
executable functions; the browser page source, the URL parser and the HTTP
session are external collaborators and are modelled as explicit oracles; the
filesystem is modelled as an explicit state record threaded through the
download routines in the order the source performs its side effects.
-/

/-! ### Character classes -/

/-- Python character class `[A-Za-z0-9]` (ASCII letters and digits), used by
the `re.sub` pattern in `slugify`. -/
def isAlnumChar (c : Char) : Bool := c.isAlpha || c.isDigit

/-- The character class `[A-Za-z0-9_-]` used by the identifier-extraction
patterns in `main`. -/
def isIdChar (c : Char) : Bool := c.isAlpha || c.isDigit || c = '_' || c = '-'

/-! ### `slugify` (source lines 11-13)

`p = urlparse(url).path.strip('/'); return re.sub(r'[^A-Za-z0-9]+', '_', p) or 'root'`.
`urlparse` is an external library; the embedding takes the URL's path
component (the string `urlparse(url).path`) as its input. -/

/-- Python `str.strip('/')`: remove every leading and trailing `'/'`. -/
def stripSlashes (s : List Char) : List Char :=
  ((s.dropWhile (fun c => c = '/')).reverse.dropWhile (fun c => c = '/')).reverse

/-- The action of `re.sub(r'[^A-Za-z0-9]+', '_', ·)`, scanning left to right;
the flag records whether the scanner is inside a non-alphanumeric run whose
single replacement underscore has already been emitted. -/
def replaceRunsGo : Bool → List Char → List Char
  | _, [] => []
  | inRun, c :: rest =>
    if isAlnumChar c then c :: replaceRunsGo false rest
    else if inRun then replaceRunsGo true rest
    else '_' :: replaceRunsGo true rest

/-- Each maximal run of non-alphanumeric characters becomes one underscore. -/
def replaceRuns (l : List Char) : List Char := replaceRunsGo false l

/-- `slugify` from the source: strip slashes from the path, collapse
non-alphanumeric runs to underscores, and fall back to `"root"` when the
result is empty (Python `or 'root'`). -/
def slugify (path : String) : String :=
  let p := stripSlashes path.data
  let r := replaceRuns p
  if r = [] then "root" else String.mk r

/-- Claimed behaviour of `slugify`, following the claim's words only: the
path component itself has each maximal non-alphanumeric run replaced by
exactly one underscore, and an empty path yields the placeholder. (To be
compared with `slugify`, which first strips `'/'` from both ends.) -/
def slugifyClaimed (path : String) : String :=
  if path = "" then "root" else String.mk (replaceRuns path.data)

/-- Right-to-left one-pass reformulation of run collapsing, used as an
independent specification of `replaceRuns`. -/
def slugFoldStep (c : Char) (acc : List Char) : List Char :=
  if isAlnumChar c then c :: acc
  else if acc.head? = some '_' then acc else '_' :: acc

/-- Fold the whole list with `slugFoldStep`. -/
def slugFold (l : List Char) : List Char := l.foldr slugFoldStep []

/-- True when the list never has two adjacent underscores. -/
def noDoubleUS : List Char → Bool
  | [] => true
  | [_] => true
  | a :: b :: rest => !(a = '_' && b = '_') && noDoubleUS (b :: rest)

theorem replaceRunsGo_eq_slugFold : ∀ l : List Char,
    replaceRunsGo false l = slugFold l ∧
      replaceRunsGo true l
        = (if (slugFold l).head? = some '_' then (slugFold l).tail else slugFold l) := by
  intro l
  induction l with
  | nil => exact ⟨by first | rfl | trivial, by first | rfl | trivial⟩
  | cons c rest ih =>
    obtain ⟨ih1, ih2⟩ := ih
    by_cases hc : isAlnumChar c = true
    · have hcu : c ≠ '_' := by
        intro h
        rw [h] at hc
        exact absurd hc (by decide)
      have hf : slugFold (c :: rest) = c :: slugFold rest := by
        simp [slugFold, slugFoldStep, hc]
      constructor
      · rw [replaceRunsGo, if_pos hc, ih1, hf]
      · rw [replaceRunsGo, if_pos hc, ih1, hf]
        rw [if_neg (by simp [hcu])]
    · have hc' : ¬ (isAlnumChar c = true) := hc
      have hf : slugFold (c :: rest) = slugFoldStep c (slugFold rest) := rfl
      by_cases hh : (slugFold rest).head? = some '_'
      · have hsf : slugFold (c :: rest) = slugFold rest := by
          rw [hf, slugFoldStep, if_neg hc', if_pos hh]
        obtain ⟨t, ht⟩ : ∃ t, slugFold rest = '_' :: t := by
          match hrest : slugFold rest with
          | [] => rw [hrest] at hh; simp at hh
          | x :: t =>
            rw [hrest] at hh
            simp only [List.head?] at hh
            exact ⟨t, by rw [Option.some_inj.mp hh.symm]⟩
        constructor
        · rw [replaceRunsGo, if_neg hc', if_neg (by simp), ih2, if_pos hh, hsf, ht]
          rfl
        · rw [replaceRunsGo, if_neg hc', if_pos rfl, ih2, if_pos hh, hsf, if_pos hh]
      · have hsf : slugFold (c :: rest) = '_' :: slugFold rest := by
          rw [hf, slugFoldStep, if_neg hc', if_neg hh]
        constructor
        · rw [replaceRunsGo, if_neg hc', if_neg (by simp), ih2, if_neg hh, hsf]
        · rw [replaceRunsGo, if_neg hc', if_pos rfl, ih2, if_neg hh, hsf]
          rw [if_pos (by rfl)]
          rfl

theorem replaceRuns_eq_slugFold (l : List Char) : replaceRuns l = slugFold l :=
  (replaceRunsGo_eq_slugFold l).1

theorem replaceRuns_nil_iff (l : List Char) : replaceRuns l = [] ↔ l = [] := by
  constructor
  · intro h
    match l with
    | [] => rfl
    | c :: rest =>
      exfalso
      rw [replaceRuns, replaceRunsGo] at h
      by_cases hc : isAlnumChar c = true
      · rw [if_pos hc] at h
        exact List.cons_ne_nil _ _ h
      · rw [if_neg hc, if_neg (by simp)] at h
        exact List.cons_ne_nil _ _ h
  · intro h
    rw [h]
    rfl

theorem noDoubleUS_cons (c : Char) (v : List Char) :
    noDoubleUS (c :: v) = true ↔
      noDoubleUS v = true ∧ ¬(c = '_' ∧ v.head? = some '_') := by
  match v with
  | [] => simp [noDoubleUS]
  | b :: t =>
    simp only [noDoubleUS, List.head?]
    constructor
    · intro h
      have h1 := (Bool.and_eq_true _ _).mp h
      refine ⟨h1.2, ?_⟩
      intro hcontra
      have hc := hcontra.1
      have hb : b = '_' := by
        have := hcontra.2
        simpa using this
      rw [hc, hb] at h1
      simp at h1
    · intro ⟨h1, h2⟩
      refine (Bool.and_eq_true _ _).mpr ⟨?_, h1⟩
      by_cases hc : c = '_'
      · by_cases hb : b = '_'
        · exact absurd ⟨hc, by simp [hb]⟩ h2
        · simp [hc, hb]
      · simp [hc]

theorem slugFold_noDoubleUS : ∀ l : List Char, noDoubleUS (slugFold l) = true := by
  intro l
  induction l with
  | nil => rfl
  | cons c rest ih =>
    by_cases hc : isAlnumChar c = true
    · have h1 : slugFold (c :: rest) = c :: slugFold rest := by
        simp [slugFold, slugFoldStep, hc]
      rw [h1, noDoubleUS_cons]
      refine ⟨ih, ?_⟩
      intro ⟨hcu, _⟩
      rw [hcu] at hc
      exact absurd hc (by decide)
    · have h1 : slugFold (c :: rest) = slugFoldStep c (slugFold rest) := rfl
      rw [h1, slugFoldStep, if_neg hc]
      by_cases hh : (slugFold rest).head? = some '_'
      · rw [if_pos hh]
        exact ih
      · rw [if_neg hh]
        rw [noDoubleUS_cons]
        exact ⟨ih, fun hcontra => hh hcontra.2⟩

theorem slugFold_chars : ∀ l : List Char, ∀ c ∈ slugFold l, isAlnumChar c = true ∨ c = '_' := by
  intro l
  induction l with
  | nil => intro c hc; simp [slugFold] at hc
  | cons a rest ih =>
    intro c hc
    by_cases ha : isAlnumChar a = true
    · have h1 : slugFold (a :: rest) = a :: slugFold rest := by
        simp [slugFold, slugFoldStep, ha]
      rw [h1] at hc
      rcases List.mem_cons.mp hc with h | h
      · left; rw [h]; exact ha
      · exact ih c h
    · have h1 : slugFold (a :: rest) = slugFoldStep a (slugFold rest) := rfl
      rw [h1, slugFoldStep, if_neg ha] at hc
      by_cases hh : (slugFold rest).head? = some '_'
      · rw [if_pos hh] at hc
        exact ih c hc
      · rw [if_neg hh] at hc
        rcases List.mem_cons.mp hc with h | h
        · right; exact h
        · exact ih c h

theorem slugFold_filter : ∀ l : List Char,
    (slugFold l).filter isAlnumChar = l.filter isAlnumChar := by
  intro l
  induction l with
  | nil => rfl
  | cons a rest ih =>
    by_cases ha : isAlnumChar a = true
    · have h1 : slugFold (a :: rest) = a :: slugFold rest := by
        simp [slugFold, slugFoldStep, ha]
      rw [h1, List.filter_cons, if_pos ha, List.filter_cons, if_pos ha, ih]
    · have h1 : slugFold (a :: rest) = slugFoldStep a (slugFold rest) := rfl
      have hrhs : (a :: rest).filter isAlnumChar = rest.filter isAlnumChar := by
        rw [List.filter_cons, if_neg ha]
      rw [h1, slugFoldStep, if_neg ha, hrhs]
      by_cases hh : (slugFold rest).head? = some '_'
      · rw [if_pos hh]
        exact ih
      · rw [if_neg hh, List.filter_cons, if_neg (by decide)]
        exact ih

theorem filter_dropWhile_slash (l : List Char) :
    (l.dropWhile (fun c => c = '/')).filter isAlnumChar = l.filter isAlnumChar := by
  induction l with
  | nil => rfl
  | cons a rest ih =>
    by_cases ha : a = '/'
    · have h1 : (a :: rest).dropWhile (fun c => c = '/') = rest.dropWhile (fun c => c = '/') := by
        simp [List.dropWhile, ha]
      rw [h1, ih, List.filter_cons, if_neg (by rw [ha]; decide)]
    · have h1 : (a :: rest).dropWhile (fun c => c = '/') = a :: rest := by
        simp [List.dropWhile, ha]
      rw [h1]

theorem filter_stripSlashes (l : List Char) :
    (stripSlashes l).filter isAlnumChar = l.filter isAlnumChar := by
  rw [stripSlashes]
  rw [List.filter_reverse, filter_dropWhile_slash, List.filter_reverse,
    filter_dropWhile_slash, List.reverse_reverse]

/-- claim5 (corrected): the claim says each maximal non-alphanumeric run of
the path is replaced by exactly one underscore, but the source first strips
`'/'` from both ends, so the leading slash run of the path `/a` produces no
underscore at all: `slugify "/a" = "a"` while the claimed rule yields
`"_a"`. -/
theorem claim5_counterexample :
    slugify "/a" = "a" ∧ slugifyClaimed "/a" = "_a" ∧ ("a" : String) ≠ "_a" := by
  refine ⟨by decide, by decide, by decide⟩

/-- claim5 (amended): `slugify` strips leading and trailing `'/'` characters
from the path and then replaces each maximal run of non-alphanumeric
characters with exactly one underscore; a path that is empty or consists
solely of slashes yields the placeholder `"root"`. Consequently the result
contains only letters, digits and underscores, never two adjacent
underscores, and (when the stripped path is nonempty) preserves exactly the
alphanumeric characters of the path. -/
theorem claim5_slugify (p : String) :
    slugify p = (if stripSlashes p.data = [] then "root"
        else String.mk (slugFold (stripSlashes p.data)))
    ∧ (p.data.all (fun c => c = '/') = true → slugify p = "root")
    ∧ (∀ c ∈ (slugify p).data, isAlnumChar c = true ∨ c = '_')
    ∧ noDoubleUS (slugify p).data = true
    ∧ (stripSlashes p.data ≠ [] →
        (slugify p).data.filter isAlnumChar = p.data.filter isAlnumChar) := by
  have hfold := replaceRuns_eq_slugFold (stripSlashes p.data)
  have hmain : slugify p = (if stripSlashes p.data = [] then "root"
      else String.mk (slugFold (stripSlashes p.data))) := by
    simp only [slugify]
    exact if_congr (replaceRuns_nil_iff _) rfl (by rw [hfold])
  refine ⟨hmain, ?_, ?_, ?_, ?_⟩
  · intro hall
    have hstrip : stripSlashes p.data = [] := by
      rw [stripSlashes]
      have h1 : p.data.dropWhile (fun c => c = '/') = [] := by
        rw [List.dropWhile_eq_nil_iff]
        intro x hx
        simpa using List.all_eq_true.mp hall x hx
      rw [h1]
      rfl
    rw [hmain, if_pos hstrip]
  · intro c hc
    rw [hmain] at hc
    by_cases h : stripSlashes p.data = []
    · rw [if_pos h] at hc
      have hm : c ∈ ['r', 'o', 'o', 't'] := hc
      fin_cases hm <;> left <;> decide
    · rw [if_neg h] at hc
      exact slugFold_chars _ c hc
  · rw [hmain]
    by_cases h : stripSlashes p.data = []
    · rw [if_pos h]
      decide
    · rw [if_neg h]
      exact slugFold_noDoubleUS _
  · intro h
    rw [hmain, if_neg h]
    show (slugFold (stripSlashes p.data)).filter isAlnumChar = _
    rw [slugFold_filter, filter_stripSlashes]

/-- claim5 witness: the amended theorem applied at concrete paths: a path of
slashes only yields `"root"`, and the spec's example path `/a/b c!/d`
preserves exactly its alphanumeric characters. -/
theorem claim5_slugify_witness :
    (("///".data.all (fun c => c = '/') = true) ∧ slugify "///" = "root")
    ∧ (stripSlashes "/a/b c!/d".data ≠ [] ∧
        (slugify "/a/b c!/d").data.filter isAlnumChar = "/a/b c!/d".data.filter isAlnumChar) :=
  ⟨⟨by decide, (claim5_slugify "///").2.1 (by decide)⟩,
   ⟨by decide, (claim5_slugify "/a/b c!/d").2.2.2.2 (by decide)⟩⟩

/-! ### Identifier extraction (source lines 115-118 and 125-127)

`re.findall(r'/file/d/([A-Za-z0-9_-]+)', src)` and the sibling patterns: a
left-to-right non-overlapping scan; where the fixed prefix matches and at
least one identifier character follows, the maximal identifier run is
captured and the scanner resumes after the whole match, otherwise it advances
one character. `scanGo` carries fuel equal to the length of the remaining
text so that the definition is structural and kernel-reducible. -/

def scanGo (pre : List Char) : Nat → List Char → List (List Char)
  | 0, _ => []
  | _ + 1, [] => []
  | fuel + 1, c :: rest =>
    if pre.isPrefixOf (c :: rest) = true ∧
        ((c :: rest).drop pre.length).takeWhile isIdChar ≠ [] then
      ((c :: rest).drop pre.length).takeWhile isIdChar ::
        scanGo pre fuel
          (((c :: rest).drop pre.length).drop
            ((((c :: rest).drop pre.length).takeWhile isIdChar).length))
    else scanGo pre fuel rest

/-- `re.findall` of the pattern `pre([A-Za-z0-9_-]+)`: the captured groups of
the non-overlapping left-to-right maximal matches. -/
def scan (pre s : List Char) : List (List Char) := scanGo pre s.length s

/-- A maximal occurrence of `pre` followed by the identifier run `x` at
position `i` of `s`: the concatenation occurs at `i`, the run is a nonempty
sequence of identifier characters, and the run is not followed by a further
identifier character. -/
def matchAtB (pre x s : List Char) (i : Nat) : Bool :=
  (pre ++ x).isPrefixOf (s.drop i) && !x.isEmpty && x.all isIdChar &&
    (match (s.drop (i + pre.length + x.length)).head? with
     | none => true
     | some c => !isIdChar c)

/-- Position `i` of `s` starts some match of the pattern: `pre` occurs there
and is followed by at least one identifier character. -/
def matchableB (pre s : List Char) (i : Nat) : Bool :=
  pre.isPrefixOf (s.drop i) &&
    (match (s.drop (i + pre.length)).head? with
     | none => false
     | some c => isIdChar c)

theorem scanGo_fuel (pre : List Char) : ∀ (f1 f2 : Nat) (s : List Char),
    s.length ≤ f1 → s.length ≤ f2 → scanGo pre f1 s = scanGo pre f2 s := by
  intro f1
  induction f1 with
  | zero =>
    intro f2 s h1 _
    have hs : s = [] := List.eq_nil_of_length_eq_zero (Nat.le_zero.mp h1)
    subst hs
    cases f2 <;> rfl
  | succ n ih =>
    intro f2 s h1 h2
    match s with
    | [] => cases f2 <;> rfl
    | c :: rest =>
      match f2 with
      | 0 => simp at h2
      | g + 1 =>
        rw [scanGo, scanGo]
        by_cases hcond : pre.isPrefixOf (c :: rest) = true ∧
            ((c :: rest).drop pre.length).takeWhile isIdChar ≠ []
        · rw [if_pos hcond, if_pos hcond]
          congr 1
          have hrun : 0 < (((c :: rest).drop pre.length).takeWhile isIdChar).length :=
            List.length_pos.mpr hcond.2
          have hrle : (((c :: rest).drop pre.length).takeWhile isIdChar).length
              ≤ ((c :: rest).drop pre.length).length :=
            List.Sublist.length_le (List.takeWhile_sublist isIdChar)
          apply ih
          · rw [List.length_drop, List.length_drop]
            simp only [List.length_cons] at h1 ⊢
            omega
          · rw [List.length_drop, List.length_drop]
            simp only [List.length_cons] at h2 ⊢
            omega
        · rw [if_neg hcond, if_neg hcond]
          apply ih
          · simp only [List.length_cons] at h1
            omega
          · simp only [List.length_cons] at h2
            omega

theorem scan_cons (pre : List Char) (c : Char) (rest : List Char) :
    scan pre (c :: rest)
      = if pre.isPrefixOf (c :: rest) = true ∧
            ((c :: rest).drop pre.length).takeWhile isIdChar ≠ [] then
          ((c :: rest).drop pre.length).takeWhile isIdChar ::
            scan pre (((c :: rest).drop pre.length).drop
              ((((c :: rest).drop pre.length).takeWhile isIdChar).length))
        else scan pre rest := by
  show scanGo pre (rest.length + 1) (c :: rest) = _
  rw [scanGo]
  by_cases hcond : pre.isPrefixOf (c :: rest) = true ∧
      ((c :: rest).drop pre.length).takeWhile isIdChar ≠ []
  · rw [if_pos hcond, if_pos hcond]
    congr 1
    apply scanGo_fuel
    · have hrun : 0 < (((c :: rest).drop pre.length).takeWhile isIdChar).length :=
        List.length_pos.mpr hcond.2
      rw [List.length_drop, List.length_drop]
      simp only [List.length_cons]
      omega
    · exact le_refl _
  · rw [if_neg hcond, if_neg hcond]
    rfl

theorem matchAtB_shift (pre x s : List Char) (k j : Nat) :
    matchAtB pre x (s.drop k) j = matchAtB pre x s (k + j) := by
  simp only [matchAtB, List.drop_drop]
  have h1 : k + j + pre.length + x.length = k + (j + pre.length + x.length) := by omega
  rw [h1]

theorem matchableB_shift (pre s : List Char) (k j : Nat) :
    matchableB pre (s.drop k) j = matchableB pre s (k + j) := by
  simp only [matchableB, List.drop_drop]
  have h1 : k + j + pre.length = k + (j + pre.length) := by omega
  rw [h1]

theorem isPrefixOf_nil_false (l : List Char) (h : l ≠ []) :
    l.isPrefixOf ([] : List Char) = false := by
  match l with
  | [] => exact absurd rfl h
  | a :: t => rfl

theorem isEmpty_false_of_ne_nil (l : List Char) (h : l ≠ []) : l.isEmpty = false := by
  match l with
  | [] => exact absurd rfl h
  | a :: t => rfl

theorem dropWhile_head_false (p : Char → Bool) : ∀ (l : List Char) (c : Char),
    (l.dropWhile p).head? = some c → p c = false := by
  intro l
  induction l with
  | nil => intro c hc; simp [List.dropWhile] at hc
  | cons a t ih =>
    intro c hc
    by_cases ha : p a = true
    · rw [List.dropWhile_cons, if_pos ha] at hc
      exact ih c hc
    · rw [List.dropWhile_cons, if_neg ha] at hc
      have hca : c = a := by
        simpa using hc.symm
      rw [hca]
      simpa using ha

theorem takeWhile_append_eq (p : Char → Bool) : ∀ (x w : List Char),
    (∀ c ∈ x, p c = true) → (∀ d, w.head? = some d → p d = false) →
    (x ++ w).takeWhile p = x := by
  intro x
  induction x with
  | nil =>
    intro w _ hw
    match w with
    | [] => rfl
    | d :: t =>
      have hd := hw d rfl
      show (d :: t).takeWhile p = []
      rw [List.takeWhile_cons, if_neg (by simp [hd])]
  | cons a t ih =>
    intro w hx hw
    have ha := hx a (List.mem_cons_self a t)
    show ((a :: (t ++ w)).takeWhile p) = a :: t
    rw [List.takeWhile_cons, if_pos ha, ih w (fun c hc => hx c (List.mem_cons_of_mem a hc)) hw]

theorem matchAtB_parts (pre x s : List Char) (i : Nat) (h : matchAtB pre x s i = true) :
    (pre ++ x).isPrefixOf (s.drop i) = true ∧ x ≠ [] ∧ (∀ c ∈ x, isIdChar c = true) ∧
      (∀ d, (s.drop (i + pre.length + x.length)).head? = some d → isIdChar d = false) := by
  simp only [matchAtB, Bool.and_eq_true] at h
  obtain ⟨⟨⟨h1, h2⟩, h3⟩, h4⟩ := h
  refine ⟨h1, ?_, ?_, ?_⟩
  · intro hx
    rw [hx] at h2
    simp at h2
  · intro c hc
    exact List.all_eq_true.mp h3 c hc
  · intro d hd
    rw [hd] at h4
    simpa using h4

theorem matchAtB_intro (pre x s : List Char) (i : Nat)
    (h1 : (pre ++ x).isPrefixOf (s.drop i) = true) (h2 : x ≠ [])
    (h3 : ∀ c ∈ x, isIdChar c = true)
    (h4 : ∀ d, (s.drop (i + pre.length + x.length)).head? = some d → isIdChar d = false) :
    matchAtB pre x s i = true := by
  simp only [matchAtB, Bool.and_eq_true]
  refine ⟨⟨⟨h1, ?_⟩, ?_⟩, ?_⟩
  · rw [isEmpty_false_of_ne_nil x h2]
    rfl
  · exact List.all_eq_true.mpr h3
  · match hh : (s.drop (i + pre.length + x.length)).head? with
    | none => rfl
    | some d => simp [h4 d hh]

theorem matchableB_intro (pre s : List Char) (i : Nat)
    (h1 : pre.isPrefixOf (s.drop i) = true) (d : Char)
    (h2 : (s.drop (i + pre.length)).head? = some d) (h3 : isIdChar d = true) :
    matchableB pre s i = true := by
  simp only [matchableB, Bool.and_eq_true]
  refine ⟨h1, ?_⟩
  rw [h2]
  exact h3

theorem matchable_of_matchAt (pre x s : List Char) (i : Nat)
    (h : matchAtB pre x s i = true) : matchableB pre s i = true := by
  obtain ⟨h1, h2, h3, _⟩ := matchAtB_parts pre x s i h
  obtain ⟨w, hw⟩ := List.isPrefixOf_iff_prefix.mp h1
  obtain ⟨a, t, hx⟩ := List.exists_cons_of_ne_nil h2
  have hp : pre.isPrefixOf (s.drop i) = true := by
    rw [List.isPrefixOf_iff_prefix]
    exact (List.prefix_append pre x).trans (List.isPrefixOf_iff_prefix.mp h1)
  have hdrop : s.drop (i + pre.length) = x ++ w := by
    have hdd : (s.drop i).drop pre.length = s.drop (i + pre.length) := List.drop_drop _ _ _
    rw [← hdd, ← hw, List.append_assoc, List.drop_left]
  apply matchableB_intro pre s i hp a
  · rw [hdrop, hx]
    rfl
  · exact h3 a (by rw [hx]; exact List.mem_cons_self a t)

theorem head_match_at_zero (pre s : List Char) (hpre : pre.isPrefixOf s = true)
    (hrun : (s.drop pre.length).takeWhile isIdChar ≠ []) :
    matchAtB pre ((s.drop pre.length).takeWhile isIdChar) s 0 = true := by
  obtain ⟨t, ht⟩ := List.isPrefixOf_iff_prefix.mp hpre
  have hafter : s.drop pre.length = t := by
    rw [← ht, List.drop_left]
  rw [hafter]
  have h1 : s = (pre ++ t.takeWhile isIdChar) ++ t.dropWhile isIdChar := by
    rw [List.append_assoc, List.takeWhile_append_dropWhile, ht]
  apply matchAtB_intro
  · rw [List.drop_zero, List.isPrefixOf_iff_prefix]
    exact ⟨t.dropWhile isIdChar, h1.symm⟩
  · rw [hafter] at hrun
    exact hrun
  · intro c2 hc2
    exact List.mem_takeWhile_imp hc2
  · intro d hd
    have hdw : s.drop (0 + pre.length + (t.takeWhile isIdChar).length)
        = t.dropWhile isIdChar := by
      rw [Nat.zero_add, ← List.length_append pre (t.takeWhile isIdChar), h1, List.drop_left]
    rw [hdw] at hd
    exact dropWhile_head_false isIdChar t d hd

theorem scan_sound_aux (pre : List Char) : ∀ (n : Nat) (s : List Char), s.length ≤ n →
    ∀ x ∈ scan pre s, ∃ i, matchAtB pre x s i = true := by
  intro n
  induction n with
  | zero =>
    intro s hs x hx
    have h0 : s = [] := List.eq_nil_of_length_eq_zero (Nat.le_zero.mp hs)
    subst h0
    exact absurd hx (by simp [scan, scanGo])
  | succ n ih =>
    intro s hs x hx
    match s with
    | [] => exact absurd hx (by simp [scan, scanGo])
    | c :: rest =>
      rw [scan_cons] at hx
      by_cases hcond : pre.isPrefixOf (c :: rest) = true ∧
          ((c :: rest).drop pre.length).takeWhile isIdChar ≠ []
      · rw [if_pos hcond] at hx
        rcases List.mem_cons.mp hx with hxr | hxs
        · subst hxr
          exact ⟨0, head_match_at_zero pre (c :: rest) hcond.1 hcond.2⟩
        · have hrun : 0 < (((c :: rest).drop pre.length).takeWhile isIdChar).length :=
            List.length_pos.mpr hcond.2
          have hlen : ((((c :: rest).drop pre.length).drop
              ((((c :: rest).drop pre.length).takeWhile isIdChar).length)).length) ≤ n := by
            rw [List.length_drop, List.length_drop]
            simp only [List.length_cons] at hs ⊢
            omega
          obtain ⟨j, hj⟩ := ih _ hlen x hxs
          refine ⟨pre.length + (((c :: rest).drop pre.length).takeWhile isIdChar).length + j, ?_⟩
          have hdd : (((c :: rest).drop pre.length).drop
              ((((c :: rest).drop pre.length).takeWhile isIdChar).length))
              = (c :: rest).drop
                (pre.length + (((c :: rest).drop pre.length).takeWhile isIdChar).length) :=
            List.drop_drop _ _ _
          rw [hdd] at hj
          rw [matchAtB_shift] at hj
          have harith : pre.length + (((c :: rest).drop pre.length).takeWhile isIdChar).length + j
              = pre.length + (((c :: rest).drop pre.length).takeWhile isIdChar).length + j := rfl
          exact hj
      · rw [if_neg hcond] at hx
        obtain ⟨j, hj⟩ := ih rest (by simp only [List.length_cons] at hs; omega) x hx
        refine ⟨1 + j, ?_⟩
        have h5 : matchAtB pre x ((c :: rest).drop 1) j = matchAtB pre x (c :: rest) (1 + j) :=
          matchAtB_shift pre x (c :: rest) 1 j
        rw [show ((c :: rest).drop 1) = rest from rfl] at h5
        rw [← h5]
        exact hj

theorem scan_complete_aux (pre : List Char) : ∀ (n : Nat) (s : List Char), s.length ≤ n →
    ∀ (x : List Char) (i : Nat), matchAtB pre x s i = true →
      (∀ j, j < i → matchableB pre s j = false) → x ∈ scan pre s := by
  intro n
  induction n with
  | zero =>
    intro s hs x i hm _
    exfalso
    have h0 : s = [] := List.eq_nil_of_length_eq_zero (Nat.le_zero.mp hs)
    subst h0
    obtain ⟨h1, h2, _, _⟩ := matchAtB_parts pre x [] i hm
    rw [List.drop_nil] at h1
    have hne : pre ++ x ≠ [] := by
      intro hc
      exact h2 (List.append_eq_nil.mp hc).2
    rw [isPrefixOf_nil_false _ hne] at h1
    simp at h1
  | succ n ih =>
    intro s hs x i hm hmin
    match s with
    | [] =>
      exfalso
      obtain ⟨h1, h2, _, _⟩ := matchAtB_parts pre x [] i hm
      rw [List.drop_nil] at h1
      have hne : pre ++ x ≠ [] := by
        intro hc
        exact h2 (List.append_eq_nil.mp hc).2
      rw [isPrefixOf_nil_false _ hne] at h1
      simp at h1
    | c :: rest =>
      rw [scan_cons]
      by_cases hcond : pre.isPrefixOf (c :: rest) = true ∧
          ((c :: rest).drop pre.length).takeWhile isIdChar ≠ []
      · rw [if_pos hcond]
        have hrun_ne := hcond.2
        obtain ⟨a, t2, hat, hia⟩ : ∃ a t2,
            (c :: rest).drop pre.length = a :: t2 ∧ isIdChar a = true := by
          rcases hA : (c :: rest).drop pre.length with _ | ⟨a, t2⟩
          · rw [hA] at hrun_ne
            exact absurd rfl hrun_ne
          · refine ⟨a, t2, rfl, ?_⟩
            by_cases hia : isIdChar a = true
            · exact hia
            · rw [hA, List.takeWhile_cons, if_neg (by simp [hia])] at hrun_ne
              exact absurd rfl hrun_ne
        have hcond0 : matchableB pre (c :: rest) 0 = true := by
          apply matchableB_intro pre (c :: rest) 0 (by rw [List.drop_zero]; exact hcond.1) a
          · rw [Nat.zero_add, hat]
            rfl
          · exact hia
        have hi0 : i = 0 := by
          by_contra hne
          have hfalse := hmin 0 (Nat.pos_of_ne_zero hne)
          rw [hcond0] at hfalse
          simp at hfalse
        subst hi0
        obtain ⟨h1, h2, h3, h4⟩ := matchAtB_parts pre x (c :: rest) 0 hm
        rw [List.drop_zero] at h1
        obtain ⟨w, hw⟩ := List.isPrefixOf_iff_prefix.mp h1
        have hafter2 : (c :: rest).drop pre.length = x ++ w := by
          rw [← hw, List.append_assoc, List.drop_left]
        have hwhead : ∀ d, w.head? = some d → isIdChar d = false := by
          intro d hd
          apply h4 d
          have hdw : (c :: rest).drop (0 + pre.length + x.length) = w := by
            rw [Nat.zero_add, ← List.length_append pre x, ← hw, List.drop_left]
          rw [hdw]
          exact hd
        have hxrun : ((c :: rest).drop pre.length).takeWhile isIdChar = x := by
          rw [hafter2]
          exact takeWhile_append_eq isIdChar x w h3 hwhead
        rw [hxrun]
        exact List.mem_cons_self _ _
      · rw [if_neg hcond]
        rcases Nat.eq_zero_or_pos i with hi0 | hipos
        · exfalso
          subst hi0
          obtain ⟨h1, h2, h3, _⟩ := matchAtB_parts pre x (c :: rest) 0 hm
          rw [List.drop_zero] at h1
          obtain ⟨w, hw⟩ := List.isPrefixOf_iff_prefix.mp h1
          have hpre2 : pre.isPrefixOf (c :: rest) = true := by
            rw [List.isPrefixOf_iff_prefix]
            exact (List.prefix_append pre x).trans (List.isPrefixOf_iff_prefix.mp h1)
          have hafter2 : (c :: rest).drop pre.length = x ++ w := by
            rw [← hw, List.append_assoc, List.drop_left]
          obtain ⟨a, t2, hx2⟩ := List.exists_cons_of_ne_nil h2
          have hrun2 : ((c :: rest).drop pre.length).takeWhile isIdChar ≠ [] := by
            rw [hafter2, hx2, List.cons_append, List.takeWhile_cons,
              if_pos (h3 a (by rw [hx2]; exact List.mem_cons_self a t2))]
            exact List.cons_ne_nil _ _
          exact hcond ⟨hpre2, hrun2⟩
        · obtain ⟨i2, hi2⟩ := Nat.exists_eq_succ_of_ne_zero (Nat.pos_iff_ne_zero.mp hipos)
          subst hi2
          apply ih rest (by simp only [List.length_cons] at hs; omega) x i2
          · have h5 : matchAtB pre x ((c :: rest).drop 1) i2
                = matchAtB pre x (c :: rest) (1 + i2) := matchAtB_shift pre x (c :: rest) 1 i2
            rw [show ((c :: rest).drop 1) = rest from rfl] at h5
            rw [h5, Nat.add_comm 1 i2]
            exact hm
          · intro j hj
            have h6 : matchableB pre ((c :: rest).drop 1) j
                = matchableB pre (c :: rest) (1 + j) := matchableB_shift pre (c :: rest) 1 j
            rw [show ((c :: rest).drop 1) = rest from rfl] at h6
            rw [h6]
            apply hmin
            omega

theorem scan_sound (pre s x : List Char) (hx : x ∈ scan pre s) :
    ∃ i, matchAtB pre x s i = true :=
  scan_sound_aux pre s.length s (le_refl _) x hx

theorem scan_complete (pre s x : List Char) (i : Nat) (hm : matchAtB pre x s i = true)
    (hmin : ∀ j, j < i → matchableB pre s j = false) : x ∈ scan pre s :=
  scan_complete_aux pre s.length s (le_refl _) x i hm hmin

theorem scan_nil_of_unmatchable (pre : List Char) (hpre : pre ≠ []) (s : List Char)
    (h : ∀ i, i < s.length → matchableB pre s i = false) : scan pre s = [] := by
  by_contra hne
  obtain ⟨x, hx⟩ := List.exists_mem_of_ne_nil _ hne
  obtain ⟨i, hi⟩ := scan_sound pre s x hx
  have hmb := matchable_of_matchAt pre x s i hi
  by_cases hilen : i < s.length
  · rw [h i hilen] at hmb
    simp at hmb
  · have hd : s.drop i = [] := List.drop_eq_nil_of_le (by omega)
    simp only [matchableB, hd] at hmb
    rw [isPrefixOf_nil_false pre hpre] at hmb
    simp at hmb

/-! ### The four extraction patterns of `main` -/

/-- Pattern text of `re.findall(r'/file/d/([A-Za-z0-9_-]+)', src)`. -/
def filePre1 : String := "/file/d/"

/-- Pattern text of `re.findall(r'open\?id=([A-Za-z0-9_-]+)', src)`. -/
def filePre2 : String := "open?id="

/-- Pattern text of `re.findall(r'/document/d/([A-Za-z0-9_-]+)', src)`. -/
def docPre : String := "/document/d/"

/-- Pattern text of the folder pattern, which has no capture group, so
`re.findall` returns the full matches. -/
def folderPre : String := "https://drive.google.com/drive/folders/"

/-- `set(re.findall(r'/file/d/…')) | set(re.findall(r'open\?id=…'))`:
the union of the two file-ID scans with set (duplicate-collapsing)
semantics. -/
def extractFileIds (src : String) : List String :=
  ((scan filePre1.data src.data).map String.mk
    ++ (scan filePre2.data src.data).map String.mk).dedup

/-- `set(re.findall(r'/document/d/([A-Za-z0-9_-]+)', src))`. -/
def extractDocIds (src : String) : List String :=
  ((scan docPre.data src.data).map String.mk).dedup

/-- `set(re.findall(r'https://drive\.google\.com/drive/folders/[A-Za-z0-9_-]+', src))`:
full matches, prefix and identifier run together. -/
def extractFolders (src : String) : List String :=
  ((scan folderPre.data src.data).map (fun r => String.mk (folderPre.data ++ r))).dedup

/-- claim4 (corrected): the extractor is a non-overlapping scan, so an
occurrence that overlaps an earlier match is missed: in
`/file/d/file/d/X` the substring `/file/d/X` occurs (maximally) at index 7,
yet the only extracted file ID is `file`, not `X` — the claim's "exactly the
set of matching substrings" fails. -/
theorem claim4_counterexample :
    ("X" : String) ∉ extractFileIds "/file/d/file/d/X"
    ∧ matchAtB filePre1.data "X".data "/file/d/file/d/X".data 7 = true
    ∧ extractFileIds "/file/d/file/d/X" = ["file"] := by
  refine ⟨by decide, by decide, by decide⟩

/-- claim4 (amended): for each pattern, every extracted ID corresponds to a
maximal occurrence of the pattern in the markup ("soundness"), and every
maximal occurrence that no earlier position could match is extracted
("first-occurrence completeness" — the scan is non-overlapping, so later
occurrences overlapping an earlier match can be missed); results carry set
semantics (no duplicates), and markup in which no position can start a match
yields empty results. -/
theorem claim4_extract (src : String) :
    (∀ x ∈ extractFileIds src,
        (∃ i, matchAtB filePre1.data x.data src.data i = true) ∨
        (∃ i, matchAtB filePre2.data x.data src.data i = true))
    ∧ (∀ (x : List Char) (i : Nat), matchAtB filePre1.data x src.data i = true →
        (∀ j, j < i → matchableB filePre1.data src.data j = false) →
        String.mk x ∈ extractFileIds src)
    ∧ (∀ (x : List Char) (i : Nat), matchAtB filePre2.data x src.data i = true →
        (∀ j, j < i → matchableB filePre2.data src.data j = false) →
        String.mk x ∈ extractFileIds src)
    ∧ (∀ x ∈ extractDocIds src, ∃ i, matchAtB docPre.data x.data src.data i = true)
    ∧ (∀ (x : List Char) (i : Nat), matchAtB docPre.data x src.data i = true →
        (∀ j, j < i → matchableB docPre.data src.data j = false) →
        String.mk x ∈ extractDocIds src)
    ∧ (∀ x ∈ extractFolders src, ∃ r i, x = String.mk (folderPre.data ++ r) ∧
        matchAtB folderPre.data r src.data i = true)
    ∧ (∀ (r : List Char) (i : Nat), matchAtB folderPre.data r src.data i = true →
        (∀ j, j < i → matchableB folderPre.data src.data j = false) →
        String.mk (folderPre.data ++ r) ∈ extractFolders src)
    ∧ (extractFileIds src).Nodup ∧ (extractDocIds src).Nodup ∧ (extractFolders src).Nodup
    ∧ ((∀ i, i < src.data.length → matchableB filePre1.data src.data i = false) →
       (∀ i, i < src.data.length → matchableB filePre2.data src.data i = false) →
        extractFileIds src = [])
    ∧ ((∀ i, i < src.data.length → matchableB docPre.data src.data i = false) →
        extractDocIds src = [])
    ∧ ((∀ i, i < src.data.length → matchableB folderPre.data src.data i = false) →
        extractFolders src = []) := by
  refine ⟨?_, ?_, ?_, ?_, ?_, ?_, ?_, ?_, ?_, ?_, ?_, ?_, ?_⟩
  · intro x hx
    rw [extractFileIds, List.mem_dedup, List.mem_append] at hx
    rcases hx with hx | hx
    · left
      obtain ⟨l, hl, hlx⟩ := List.mem_map.mp hx
      obtain ⟨i, hi⟩ := scan_sound _ _ _ hl
      exact ⟨i, by rw [← hlx]; exact hi⟩
    · right
      obtain ⟨l, hl, hlx⟩ := List.mem_map.mp hx
      obtain ⟨i, hi⟩ := scan_sound _ _ _ hl
      exact ⟨i, by rw [← hlx]; exact hi⟩
  · intro x i hm hmin
    rw [extractFileIds, List.mem_dedup, List.mem_append]
    left
    exact List.mem_map.mpr ⟨x, scan_complete _ _ x i hm hmin, rfl⟩
  · intro x i hm hmin
    rw [extractFileIds, List.mem_dedup, List.mem_append]
    right
    exact List.mem_map.mpr ⟨x, scan_complete _ _ x i hm hmin, rfl⟩
  · intro x hx
    rw [extractDocIds, List.mem_dedup] at hx
    obtain ⟨l, hl, hlx⟩ := List.mem_map.mp hx
    obtain ⟨i, hi⟩ := scan_sound _ _ _ hl
    exact ⟨i, by rw [← hlx]; exact hi⟩
  · intro x i hm hmin
    rw [extractDocIds, List.mem_dedup]
    exact List.mem_map.mpr ⟨x, scan_complete _ _ x i hm hmin, rfl⟩
  · intro x hx
    rw [extractFolders, List.mem_dedup] at hx
    obtain ⟨l, hl, hlx⟩ := List.mem_map.mp hx
    obtain ⟨i, hi⟩ := scan_sound _ _ _ hl
    exact ⟨l, i, hlx.symm, hi⟩
  · intro r i hm hmin
    rw [extractFolders, List.mem_dedup]
    exact List.mem_map.mpr ⟨r, scan_complete _ _ r i hm hmin, rfl⟩
  · exact List.nodup_dedup _
  · exact List.nodup_dedup _
  · exact List.nodup_dedup _
  · intro h1 h2
    rw [extractFileIds,
      scan_nil_of_unmatchable filePre1.data (by decide) src.data h1,
      scan_nil_of_unmatchable filePre2.data (by decide) src.data h2]
    rfl
  · intro h1
    rw [extractDocIds, scan_nil_of_unmatchable docPre.data (by decide) src.data h1]
    rfl
  · intro h1
    rw [extractFolders, scan_nil_of_unmatchable folderPre.data (by decide) src.data h1]
    rfl

/-- claim4 witness: the amended theorem applied to concrete markup — the
first-occurrence completeness parts place `AA`, `BB`, `DD` and the folder URL
in the respective result sets, and the empty-markup parts give empty results
for markup with no matches. -/
theorem claim4_extract_witness :
    (matchAtB filePre1.data "AA".data " /file/d/AA open?id=BB /document/d/DD ".data 1 = true
      ∧ (∀ j, j < 1 → matchableB filePre1.data " /file/d/AA open?id=BB /document/d/DD ".data j
          = false)
      ∧ ("AA" : String) ∈ extractFileIds " /file/d/AA open?id=BB /document/d/DD ")
    ∧ (matchAtB filePre2.data "BB".data " /file/d/AA open?id=BB /document/d/DD ".data 12 = true
      ∧ ("BB" : String) ∈ extractFileIds " /file/d/AA open?id=BB /document/d/DD ")
    ∧ (matchAtB docPre.data "DD".data " /file/d/AA open?id=BB /document/d/DD ".data 23 = true
      ∧ ("DD" : String) ∈ extractDocIds " /file/d/AA open?id=BB /document/d/DD ")
    ∧ ((∀ i, i < "no matches here".data.length →
          matchableB filePre1.data "no matches here".data i = false)
      ∧ extractFileIds "no matches here" = []
      ∧ extractDocIds "no matches here" = []
      ∧ extractFolders "no matches here" = []) := by
  have h1 := (claim4_extract " /file/d/AA open?id=BB /document/d/DD ").2.1
    "AA".data 1 (by decide) (by decide)
  have h2 := (claim4_extract " /file/d/AA open?id=BB /document/d/DD ").2.2.1
    "BB".data 12 (by decide) (by decide)
  have h3 := (claim4_extract " /file/d/AA open?id=BB /document/d/DD ").2.2.2.2.1
    "DD".data 23 (by decide) (by decide)
  have h4 := (claim4_extract "no matches here").2.2.2.2.2.2.2.2.2.2.1
    (by decide) (by decide)
  have h5 := (claim4_extract "no matches here").2.2.2.2.2.2.2.2.2.2.2.1 (by decide)
  have h6 := (claim4_extract "no matches here").2.2.2.2.2.2.2.2.2.2.2.2 (by decide)
  exact ⟨⟨by decide, by decide, h1⟩, ⟨by decide, h2⟩, ⟨by decide, h3⟩,
    ⟨by decide, h4, h5, h6⟩⟩

/-! ### HTTP and filesystem model

The `requests` session is modelled as an oracle mapping each issued request
to either a network failure (`Except.error`) or a `Response`; `requests`'
header dictionary is case-insensitive, cookies are an ordered name/value
list (iteration order of `resp.cookies.items()`), and the body is the byte
stream. The filesystem is a record of a directory set and a file map. -/

structure Request where
  url : String
  params : List (String × String)
deriving DecidableEq

structure Response where
  status : Nat
  headers : List (String × String)
  cookies : List (String × String)
  body : List Nat
deriving DecidableEq

@[ext]
structure FS where
  dirs : String → Bool
  files : String → Option (List Nat)

/-- The empty filesystem, used to read off a download's write effect. -/
def emptyFS : FS := ⟨fun _ => false, fun _ => none⟩

/-- Lower-case a string (ASCII), for case-insensitive header lookup. -/
def lowerStr (s : String) : String := String.mk (s.data.map Char.toLower)

/-- `resp.headers.get(name, '')` on `requests`' case-insensitive header
dictionary. -/
def headerGet (hs : List (String × String)) (name : String) : String :=
  match hs.find? (fun kv => lowerStr kv.1 == lowerStr name) with
  | some kv => kv.2
  | none => ""

/-- Python's `s.startswith(pre)`. -/
def strStarts (s pre : String) : Bool := pre.data.isPrefixOf s.data

/-- `get_confirm_token` (source lines 15-19): the value of the first cookie
whose name starts with `download_warning`, else `None`. -/
def get_confirm_token (resp : Response) : Option String :=
  match resp.cookies.find? (fun kv => strStarts kv.1 "download_warning") with
  | some kv => some kv.2
  | none => none

/-- Python's substring test `pat in s`. -/
def substrB (pat : List Char) : List Char → Bool
  | [] => pat.isEmpty
  | c :: rest => pat.isPrefixOf (c :: rest) || substrB pat rest

/-- `pat in s` at the `String` level. -/
def strContains (s pat : String) : Bool := substrB pat.data s.data

/-- `infer_extension` (source lines 21-30): `.pdf` when the Content-Type
starts with `application/pdf`, otherwise substring tests for the Word,
PowerPoint and Excel families, otherwise the empty extension. -/
def infer_extension (content_type : String) : String :=
  if strStarts content_type "application/pdf" then ".pdf"
  else if strContains content_type "wordprocessingml.document"
      || strContains content_type "msword" then ".docx"
  else if strContains content_type "presentationml.presentation" then ".pptx"
  else if strContains content_type "spreadsheet" then ".xlsx"
  else ""

/-! ### The Content-Disposition regex `filename\*?=(?:UTF-8'')?"?([^";]+)"?`

Modelled step by step with Python `re.search` semantics: leftmost match
position, greedy optional parts with the (finitely many) backtracking
alternatives the pattern admits. -/

/-- The double-quote character. -/
def quoteChar : Char := Char.ofNat 34

/-- The capture group `([^";]+)`: the maximal nonempty run of characters
that are neither a double quote nor a semicolon. -/
def capRun (s : List Char) : Option (List Char) :=
  let t := s.takeWhile (fun c => !(c = quoteChar || c = ';'))
  if t.isEmpty then none else some t

/-- `"?([^";]+)"?`: optionally consume one leading quote, then capture. If
the quote is consumed but nothing capturable follows, backtracking to the
unconsumed-quote alternative also fails, since the capture would then start
at the quote itself. -/
def fnTail (s : List Char) : Option (List Char) :=
  if s.head? = some quoteChar then capRun s.tail else capRun s

/-- The literal `UTF-8''` (seven characters). -/
def utfMark : List Char := ['U', 'T', 'F', '-', '8', Char.ofNat 39, Char.ofNat 39]

/-- `(?:UTF-8'')?"?([^";]+)"?`: greedily consume `UTF-8''` when present,
backtracking to the unconsumed alternative if the rest of the pattern then
fails. -/
def fnAfterEq (s : List Char) : Option (List Char) :=
  if utfMark.isPrefixOf s then
    match fnTail (s.drop 7) with
    | some t => some t
    | none => fnTail s
  else fnTail s

/-- Attempt the whole pattern at the current position: literal `filename`,
then `\*?=` (a star must be followed by the equals sign), then the rest. -/
def fnMatchAt (s : List Char) : Option (List Char) :=
  if "filename".data.isPrefixOf s then
    match s.drop 8 with
    | '*' :: '=' :: r2 => fnAfterEq r2
    | '=' :: r2 => fnAfterEq r2
    | _ => none
  else none

/-- `re.search`: try the pattern at each position from the left. -/
def fnSearch : List Char → Option (List Char)
  | [] => none
  | c :: rest =>
    match fnMatchAt (c :: rest) with
    | some t => some t
    | none => fnSearch rest

/-- `extract_filename` (source lines 32-43): parse the Content-Disposition
header with the regex; fall back to the base name plus the inferred
extension. -/
def extract_filename (resp : Response) (fallback_base : String) : String :=
  match fnSearch (headerGet resp.headers "Content-Disposition").data with
  | some t => String.mk t
  | none => fallback_base ++ infer_extension (headerGet resp.headers "Content-Type")

/-! ### Persisting a response body (source lines 57-63 and 76-83) -/

/-- `r.iter_content(32768)` chunk size. -/
def chunkSize : Nat := 32768

/-- Split a byte stream into successive chunks of `chunkSize`; fuel equals
the length so the recursion is structural. -/
def chunksGo : Nat → List Nat → List (List Nat)
  | 0, _ => []
  | _ + 1, [] => []
  | fuel + 1, x :: xs => (x :: xs).take chunkSize :: chunksGo fuel ((x :: xs).drop chunkSize)

/-- All chunks of a body. -/
def chunksOf (body : List Nat) : List (List Nat) := chunksGo body.length body

/-- `open(path,'wb')` truncates, then each chunk is appended in order. -/
def writeBytes (body : List Nat) : List Nat :=
  (chunksOf body).foldl (fun acc ch => acc ++ ch) []

/-- `os.path.join`: an absolute second component replaces the first. -/
def pathJoin (a b : String) : String :=
  if strStarts b "/" then b else a ++ "/" ++ b

/-- `os.makedirs(d, exist_ok=True)`: afterwards the directory exists. -/
def mkdir (d : String) (fs : FS) : FS :=
  ⟨fun p => p == d || fs.dirs p, fs.files⟩

/-- Writing a file: the map now sends the path to the written bytes. -/
def writeFile (path : String) (body : List Nat) (fs : FS) : FS :=
  ⟨fs.dirs, fun p => if p == path then some (writeBytes body) else fs.files p⟩

/-- The filesystem effect shared by both download routines: compute the
destination path, create the output directory, stream the body to the file
(in source order). -/
def persistAt (r : Response) (filename outdir : String) (fs : FS) : FS :=
  writeFile (pathJoin outdir filename) r.body (mkdir outdir fs)

/-- `raise_for_status` raises exactly for 400 ≤ status < 600. -/
def statusErr (s : Nat) : Bool := decide (400 ≤ s ∧ s < 600)

theorem chunksGo_foldl (acc : List Nat) : ∀ (fuel : Nat) (l : List Nat), l.length ≤ fuel →
    (chunksGo fuel l).foldl (fun a c => a ++ c) acc = acc ++ l := by
  intro fuel
  induction fuel generalizing acc with
  | zero =>
    intro l hl
    have h0 : l = [] := List.eq_nil_of_length_eq_zero (Nat.le_zero.mp hl)
    subst h0
    simp [chunksGo]
  | succ n ih =>
    intro l hl
    match l with
    | [] => simp [chunksGo]
    | x :: xs =>
      rw [chunksGo, List.foldl_cons]
      rw [ih (acc ++ (x :: xs).take chunkSize) ((x :: xs).drop chunkSize)
        (by simp only [List.length_drop, List.length_cons] at hl ⊢; simp [chunkSize]; omega)]
      rw [List.append_assoc, List.take_append_drop]

theorem writeBytes_eq (body : List Nat) : writeBytes body = body := by
  rw [writeBytes, chunksOf, chunksGo_foldl [] body.length body (le_refl _)]
  rfl

/-! ### The download routines (source lines 47-64 and 66-84)

Each routine returns the list of HTTP requests it issued, the filesystem
after the call (unchanged up to the point where an exception is raised), and
either the saved filename or the raised error. A network failure is an
oracle `Except.error`; an HTTP error status raises through
`raise_for_status` after the (possible) confirmation retry. `if token:` is
Python truthiness: `None` and the empty string both skip the retry. -/

structure DLOut where
  requests : List Request
  fs : FS
  result : Except String String

/-- The Drive export endpoint `https://drive.google.com/uc?export=download`. -/
def driveURL : String := "https://drive.google.com/uc?export=download"

/-- The tail of `download_drive_file` after the final response is chosen:
`raise_for_status`, filename resolution, directory creation, streaming
write. -/
def finishDrive (reqs : List Request) (r : Response) (fid outdir : String) (fs : FS) : DLOut :=
  if statusErr r.status then ⟨reqs, fs, Except.error "HTTPError"⟩
  else
    ⟨reqs, persistAt r (extract_filename r fid) outdir fs, Except.ok (extract_filename r fid)⟩

/-- `download_drive_file(session, fid, outdir)` (source lines 47-64). -/
def download_drive_file (oracle : Request → Except String Response)
    (fid outdir : String) (fs : FS) : DLOut :=
  match oracle ⟨driveURL, [("id", fid)]⟩ with
  | Except.error e => ⟨[⟨driveURL, [("id", fid)]⟩], fs, Except.error e⟩
  | Except.ok r1 =>
    match get_confirm_token r1 with
    | some t =>
      if t = "" then finishDrive [⟨driveURL, [("id", fid)]⟩] r1 fid outdir fs
      else
        match oracle ⟨driveURL, [("id", fid), ("confirm", t)]⟩ with
        | Except.error e =>
          ⟨[⟨driveURL, [("id", fid)]⟩, ⟨driveURL, [("id", fid), ("confirm", t)]⟩],
            fs, Except.error e⟩
        | Except.ok r2 =>
          finishDrive [⟨driveURL, [("id", fid)]⟩, ⟨driveURL, [("id", fid), ("confirm", t)]⟩]
            r2 fid outdir fs
    | none => finishDrive [⟨driveURL, [("id", fid)]⟩] r1 fid outdir fs

/-- The document export endpoint `https://docs.google.com/document/d/{did}/export`. -/
def docURL (did : String) : String :=
  "https://docs.google.com/document/d/" ++ did ++ "/export"

/-- The export filename extension: `.pdf` for format `pdf`, else `.docx`. -/
def docExt (fmt : String) : String := if fmt = "pdf" then ".pdf" else ".docx"

/-- The tail of `download_doc_export`: `raise_for_status`, then the
synthesized name `<did>_export<ext>` — the headers are never consulted. -/
def finishDoc (reqs : List Request) (r : Response) (did outdir fmt : String) (fs : FS) : DLOut :=
  if statusErr r.status then ⟨reqs, fs, Except.error "HTTPError"⟩
  else
    ⟨reqs, persistAt r (did ++ "_export" ++ docExt fmt) outdir fs,
      Except.ok (did ++ "_export" ++ docExt fmt)⟩

/-- `download_doc_export(session, did, outdir, fmt)` (source lines 66-84). -/
def download_doc_export (oracle : Request → Except String Response)
    (did outdir fmt : String) (fs : FS) : DLOut :=
  match oracle ⟨docURL did, [("format", fmt)]⟩ with
  | Except.error e => ⟨[⟨docURL did, [("format", fmt)]⟩], fs, Except.error e⟩
  | Except.ok r1 =>
    match get_confirm_token r1 with
    | some t =>
      if t = "" then finishDoc [⟨docURL did, [("format", fmt)]⟩] r1 did outdir fmt fs
      else
        match oracle ⟨docURL did, [("format", fmt), ("confirm", t)]⟩ with
        | Except.error e =>
          ⟨[⟨docURL did, [("format", fmt)]⟩, ⟨docURL did, [("format", fmt), ("confirm", t)]⟩],
            fs, Except.error e⟩
        | Except.ok r2 =>
          finishDoc [⟨docURL did, [("format", fmt)]⟩,
            ⟨docURL did, [("format", fmt), ("confirm", t)]⟩] r2 did outdir fmt fs
    | none => finishDoc [⟨docURL did, [("format", fmt)]⟩] r1 did outdir fmt fs

/-! ### The Orchestrator (`main`, source lines 88-156)

The crawl phase drives the browser: the page source read at crawl iteration
`k` is an oracle `ps k : String → String` (the markup the browser shows for
each navigated URL during that iteration). `urlparse(url).path` is the
oracle `pathOf`. The download phase then walks the accumulated map with the
HTTP session oracle, catching every per-item exception. -/

structure CrawlOut where
  folderNavs : List String
  files : List String
  docs : List String
deriving DecidableEq

/-- Set union of the accumulating identifier sets (`files |= set(...)`). -/
def lunion (a b : List String) : List String := (a ++ b).dedup

/-- The body of the folder loop (source lines 120-127): capture the folder's
markup and merge its file and doc IDs into the accumulated sets. -/
def crawlStep (pageSource : String → String) (acc : List String × List String)
    (f : String) : List String × List String :=
  (lunion acc.1 (extractFileIds (pageSource f)), lunion acc.2 (extractDocIds (pageSource f)))

/-- Crawl one Target URL (source lines 110-128): navigate, extract, then
navigate each discovered folder once, merging its file and doc IDs; folders
discovered inside folder markup are not followed. -/
def crawlUrl (pageSource : String → String) (url : String) : CrawlOut :=
  let src := pageSource url
  let folders := extractFolders src
  let fd := folders.foldl (crawlStep pageSource) (extractFileIds src, extractDocIds src)
  ⟨folders, fd.1, fd.2⟩

structure Entry where
  outdir : String
  files : List String
  docs : List String
deriving DecidableEq

/-- Python dict assignment `id_map[url] = v`: replace the value in place if
the key exists (keys are unique in a dict), else append the new binding. -/
def dictInsert : List (String × Entry) → String → Entry → List (String × Entry)
  | [], k, v => [(k, v)]
  | kv :: rest, k, v =>
    if kv.1 == k then (k, v) :: rest else kv :: dictInsert rest k v

/-- Dict lookup by key (the value of the first — and, for a dict, only —
binding of the key). -/
def dictFind : List (String × Entry) → String → Option Entry
  | [], _ => none
  | kv :: rest, k => if kv.1 == k then some kv.2 else dictFind rest k

/-- One navigation performed by the crawl phase: a Target URL itself or a
folder discovered inside it. -/
inductive Nav where
  | target (u : String)
  | folder (f : String)
deriving DecidableEq

/-- The entry stored for `url` when it is crawled at iteration `k`. -/
def mkEntry (ps : Nat → String → String) (pathOf : String → String)
    (k : Nat) (url : String) : Entry :=
  ⟨"resources/" ++ slugify (pathOf url), (crawlUrl (ps k) url).files, (crawlUrl (ps k) url).docs⟩

/-- The crawl loop (source lines 104-131): for each URL occurrence in order,
navigate it, crawl its folders, and store the triple in the dict keyed by
the URL string. Returns the navigation log and the final `id_map`. -/
def crawlPhase (ps : Nat → String → String) (pathOf : String → String) :
    List String → Nat → List (String × Entry) → List Nav × List (String × Entry)
  | [], _, m => ([], m)
  | u :: rest, k, m =>
    let co := crawlUrl (ps k) u
    let r := crawlPhase ps pathOf rest (k + 1) (dictInsert m u (mkEntry ps pathOf k u))
    (Nav.target u :: (co.folderNavs.map Nav.folder ++ r.1), r.2)

/-- One entry of the download phase's work list. -/
inductive Attempt where
  | drive (fid outdir : String)
  | doc (did outdir fmt : String)
deriving DecidableEq

/-- The downloads `main` performs for one `id_map` entry: every file ID once,
then every doc ID once per format, `pdf` then `docx` (source lines 143-154). -/
def attemptList (e : Entry) : List Attempt :=
  e.files.map (fun fid => Attempt.drive fid e.outdir)
    ++ e.docs.foldr
        (fun did acc => Attempt.doc did e.outdir "pdf" :: Attempt.doc did e.outdir "docx" :: acc)
        []

/-- Perform one download attempt (the body of one `try:` block). -/
def runAttempt (oracle : Request → Except String Response) (a : Attempt) (fs : FS) :
    FS × Except String String :=
  match a with
  | Attempt.drive fid outdir =>
    ((download_drive_file oracle fid outdir fs).fs, (download_drive_file oracle fid outdir fs).result)
  | Attempt.doc did outdir fmt =>
    ((download_doc_export oracle did outdir fmt fs).fs,
      (download_doc_export oracle did outdir fmt fs).result)

/-- Run a list of attempts in order; each outcome (success or caught
exception) is recorded and the loop always continues. -/
def runAttempts (oracle : Request → Except String Response) :
    List Attempt → FS → List (Attempt × Except String String) × FS
  | [], fs => ([], fs)
  | a :: rest, fs =>
    let p := runAttempt oracle a fs
    let q := runAttempts oracle rest p.1
    ((a, p.2) :: q.1, q.2)

/-- The download phase (source lines 140-154): all attempts of every
`id_map` entry, in order. -/
def downloadPhase (oracle : Request → Except String Response) :
    List (String × Entry) → FS → List (Attempt × Except String String) × FS
  | [], fs => ([], fs)
  | (_, e) :: rest, fs =>
    let p := runAttempts oracle (attemptList e) fs
    let q := downloadPhase oracle rest p.2
    (p.1 ++ q.1, q.2)

structure MainOut where
  navs : List Nav
  idMap : List (String × Entry)
  attempts : List (Attempt × Except String String)
  fs : FS

/-- The whole `main` after login: create the base directory, crawl every
URL, then download everything. Reaching the end of the function is the
`Done` state; the run is total regardless of per-item outcomes. -/
def mainRun (ps : Nat → String → String) (pathOf : String → String)
    (oracle : Request → Except String Response) (urls : List String) (fs0 : FS) : MainOut :=
  let fs1 := mkdir "resources" fs0
  let cp := crawlPhase ps pathOf urls 0 []
  let dp := downloadPhase oracle cp.2 fs1
  ⟨cp.1, cp.2, dp.1, dp.2⟩

/-! ### Claim 3: filename resolution -/

theorem substrB_iff (pat : List Char) : ∀ l : List Char, substrB pat l = true ↔ pat <:+: l := by
  intro l
  induction l with
  | nil => cases pat <;> simp [substrB, List.isEmpty, List.infix_nil]
  | cons c rest ih =>
    rw [substrB, List.infix_cons_iff]
    simp [List.isPrefixOf_iff_prefix, ih]

theorem strContains_iff (s pat : String) : strContains s pat = true ↔ pat.data <:+: s.data :=
  substrB_iff pat.data s.data

theorem strStarts_iff (s pre : String) : strStarts s pre = true ↔ pre.data <+: s.data := by
  rw [strStarts]
  exact List.isPrefixOf_iff_prefix

/-- Claimed behaviour of the extension inference, following the claim's
words only: every family — including PDF — is recognized by a substring
match on the Content-Type. (To be compared with `infer_extension`, which
recognizes PDF by a prefix match.) -/
def inferExtensionClaim (content_type : String) : String :=
  if strContains content_type "application/pdf" then ".pdf"
  else if strContains content_type "wordprocessingml.document"
      || strContains content_type "msword" then ".docx"
  else if strContains content_type "presentationml.presentation" then ".pptx"
  else if strContains content_type "spreadsheet" then ".xlsx"
  else ""

/-- The extension inference stated over the mathematical prefix/infix
relations: a prefix match for the PDF family, substring matches for the
others. -/
def inferExtensionAmend (ct : String) : String :=
  if "application/pdf".data <+: ct.data then ".pdf"
  else if "wordprocessingml.document".data <:+: ct.data ∨ "msword".data <:+: ct.data then ".docx"
  else if "presentationml.presentation".data <:+: ct.data then ".pptx"
  else if "spreadsheet".data <:+: ct.data then ".xlsx"
  else ""

/-- claim3 (corrected): the claim says the PDF family is recognized by a
MIME substring match, but the source uses `startswith` for
`application/pdf`: with no Content-Disposition and Content-Type
`bogus; application/pdf` the file is named `abc` (no extension), while the
claimed substring rule would name it `abc.pdf`. -/
theorem claim3_counterexample :
    extract_filename (Response.mk 200 [("Content-Type", "bogus; application/pdf")] [] []) "abc"
        = "abc"
    ∧ strContains "bogus; application/pdf" "application/pdf" = true
    ∧ ("abc" : String) ++ inferExtensionClaim "bogus; application/pdf" = "abc.pdf"
    ∧ ("abc" : String) ≠ "abc.pdf" := by
  refine ⟨by decide, by decide, by decide, by decide⟩

/-- claim3 (amended): the destination filename is the token parsed from the
Content-Disposition header when the `filename` pattern matches (e.g.
`attachment; filename="report.pdf"` yields exactly `report.pdf`); otherwise
it is the file ID concatenated with the inferred extension, where the
extension is `.pdf` when the Content-Type starts with `application/pdf`
(prefix match, not substring match), `.docx`/`.pptx`/`.xlsx` by substring
match for the Word, PowerPoint and Excel families, and empty for every
unrecognized Content-Type (e.g. no Content-Disposition and Content-Type
`application/pdf` yields `<file_id>.pdf`). -/
theorem claim3_filename (r : Response) (fid ct : String) :
    (∀ t, fnSearch (headerGet r.headers "Content-Disposition").data = some t →
        extract_filename r fid = String.mk t)
    ∧ (fnSearch (headerGet r.headers "Content-Disposition").data = none →
        extract_filename r fid
          = fid ++ infer_extension (headerGet r.headers "Content-Type"))
    ∧ (∀ (st : Nat) (ck : List (String × String)) (b : List Nat),
        extract_filename
          (Response.mk st [("Content-Disposition", "attachment; filename=\"report.pdf\"")] ck b)
          fid = "report.pdf")
    ∧ infer_extension ct = inferExtensionAmend ct
    ∧ (∀ (st : Nat) (ck : List (String × String)) (b : List Nat),
        extract_filename (Response.mk st [("Content-Type", "application/pdf")] ck b) fid
          = fid ++ ".pdf")
    ∧ (inferExtensionAmend ct = "" ↔
        ¬("application/pdf".data <+: ct.data)
        ∧ ¬("wordprocessingml.document".data <:+: ct.data)
        ∧ ¬("msword".data <:+: ct.data)
        ∧ ¬("presentationml.presentation".data <:+: ct.data)
        ∧ ¬("spreadsheet".data <:+: ct.data)) := by
  refine ⟨?_, ?_, ?_, ?_, ?_, ?_⟩
  · intro t ht
    rw [extract_filename, ht]
  · intro ht
    rw [extract_filename, ht]
  · intro st ck b
    rfl
  · rw [infer_extension, inferExtensionAmend]
    refine if_congr (strStarts_iff ct "application/pdf") rfl
      (if_congr ?_ rfl (if_congr (strContains_iff ct "presentationml.presentation") rfl
        (if_congr (strContains_iff ct "spreadsheet") rfl rfl)))
    rw [Bool.or_eq_true, strContains_iff, strContains_iff]
  · intro st ck b
    rfl
  · rw [inferExtensionAmend]
    by_cases h1 : "application/pdf".data <+: ct.data
    · rw [if_pos h1]
      simp [h1]
    · rw [if_neg h1]
      by_cases h2 : "wordprocessingml.document".data <:+: ct.data ∨ "msword".data <:+: ct.data
      · rw [if_pos h2]
        constructor
        · intro h; exact absurd h (by decide)
        · intro h
          rcases h2 with h2 | h2
          · exact absurd h2 h.2.1
          · exact absurd h2 h.2.2.1
      · rw [if_neg h2]
        by_cases h3 : "presentationml.presentation".data <:+: ct.data
        · rw [if_pos h3]
          constructor
          · intro h; exact absurd h (by decide)
          · intro h; exact absurd h3 h.2.2.2.1
        · rw [if_neg h3]
          by_cases h4 : "spreadsheet".data <:+: ct.data
          · rw [if_pos h4]
            constructor
            · intro h; exact absurd h (by decide)
            · intro h; exact absurd h4 h.2.2.2.2
          · rw [if_neg h4]
            constructor
            · intro _
              refine ⟨h1, ?_, ?_, h3, h4⟩
              · intro hc; exact h2 (Or.inl hc)
              · intro hc; exact h2 (Or.inr hc)
            · intro _; rfl

/-- claim3 witness: the amended theorem applied at a concrete response whose
Content-Disposition carries a filename token, and at a concrete Content-Type
recognized by none of the families. -/
theorem claim3_filename_witness :
    (fnSearch (headerGet (Response.mk 200
        [("Content-Disposition", "attachment; filename=\"report.pdf\"")] [] []).headers
        "Content-Disposition").data = some "report.pdf".data
      ∧ extract_filename (Response.mk 200
          [("Content-Disposition", "attachment; filename=\"report.pdf\"")] [] []) "F"
          = String.mk "report.pdf".data)
    ∧ (fnSearch (headerGet (Response.mk 404 [("Content-Type", "text/html")] [] []).headers
        "Content-Disposition").data = none
      ∧ extract_filename (Response.mk 404 [("Content-Type", "text/html")] [] []) "F"
          = "F" ++ infer_extension (headerGet (Response.mk 404
              [("Content-Type", "text/html")] [] []).headers "Content-Type")) :=
  ⟨⟨by decide,
    (claim3_filename (Response.mk 200
      [("Content-Disposition", "attachment; filename=\"report.pdf\"")] [] []) "F" "x").1
      "report.pdf".data (by decide)⟩,
   ⟨by decide,
    (claim3_filename (Response.mk 404 [("Content-Type", "text/html")] [] []) "F" "x").2.1
      (by decide)⟩⟩

/-! ### Claim 2: the confirmation-token protocol -/

theorem finishDrive_requests (reqs : List Request) (r : Response) (fid outdir : String)
    (fs : FS) : (finishDrive reqs r fid outdir fs).requests = reqs := by
  rw [finishDrive]
  by_cases h : statusErr r.status = true
  · rw [if_pos h]
  · rw [if_neg h]

theorem finishDoc_requests (reqs : List Request) (r : Response) (did outdir fmt : String)
    (fs : FS) : (finishDoc reqs r did outdir fmt fs).requests = reqs := by
  rw [finishDoc]
  by_cases h : statusErr r.status = true
  · rw [if_pos h]
  · rw [if_neg h]

theorem persistAt_files_self (r : Response) (filename outdir : String) (fs : FS) :
    (persistAt r filename outdir fs).files (pathJoin outdir filename) = some r.body := by
  rw [persistAt, writeFile]
  simp [writeBytes_eq]

/-- The second Drive request issued when a nonempty confirmation token `t`
was found. -/
def driveReq2 (fid t : String) : Request := ⟨driveURL, [("id", fid), ("confirm", t)]⟩

/-- The second document request issued when a nonempty token `t` was found. -/
def docReq2 (did fmt t : String) : Request :=
  ⟨docURL did, [("format", fmt), ("confirm", t)]⟩

/-- A session whose every response carries a `download_warning` cookie with
an empty value. -/
def oracleEmptyTok : Request → Except String Response :=
  fun _ => Except.ok (Response.mk 200 [] [("download_warning_x", "")] [1, 2])

/-- claim2 (corrected): `if token:` is Python truthiness, so a
`download_warning` cookie whose value is the empty string does not trigger
the confirmation retry: with such a first response only one request is
issued, while the claim (cookie present → exactly two requests) requires
two. -/
theorem claim2_counterexample :
    (∃ kv ∈ (Response.mk 200 [] [("download_warning_x", "")] [1, 2]).cookies,
        strStarts kv.1 "download_warning" = true)
    ∧ oracleEmptyTok (Request.mk driveURL [("id", "F")])
        = Except.ok (Response.mk 200 [] [("download_warning_x", "")] [1, 2])
    ∧ (download_drive_file oracleEmptyTok "F" "out" emptyFS).requests.length = 1
    ∧ (1 : Nat) ≠ 2 := by
  refine ⟨⟨("download_warning_x", ""), by decide, by decide⟩, rfl, by decide, by decide⟩

/-- claim2 (amended): for both `download_drive_file` and
`download_doc_export` — when the first response's first `download_warning`
cookie has a nonempty value `v`, exactly one further GET with `confirm=v` is
issued and the second response's body is the one persisted; when no such
cookie is present — or the first such cookie's value is empty (Python
truthiness) — exactly one request is issued in total and the first
response's body is the one persisted. -/
theorem claim2_confirm (oracle : Request → Except String Response)
    (fid did outdir fmt : String) (fs : FS) (r1 rd1 : Response)
    (h1 : oracle (Request.mk driveURL [("id", fid)]) = Except.ok r1)
    (hd1 : oracle (Request.mk (docURL did) [("format", fmt)]) = Except.ok rd1) :
    (∀ k v, r1.cookies.find? (fun kv => strStarts kv.1 "download_warning") = some (k, v) →
      v ≠ "" →
      (download_drive_file oracle fid outdir fs).requests
          = [Request.mk driveURL [("id", fid)], driveReq2 fid v]
        ∧ (∀ r2, oracle (driveReq2 fid v) = Except.ok r2 →
            statusErr r2.status = false →
            (download_drive_file oracle fid outdir fs).fs.files
                (pathJoin outdir (extract_filename r2 fid)) = some r2.body))
    ∧ (∀ k, r1.cookies.find? (fun kv => strStarts kv.1 "download_warning") = some (k, "") →
        (download_drive_file oracle fid outdir fs).requests
            = [Request.mk driveURL [("id", fid)]]
        ∧ (statusErr r1.status = false →
            (download_drive_file oracle fid outdir fs).fs.files
                (pathJoin outdir (extract_filename r1 fid)) = some r1.body))
    ∧ (r1.cookies.find? (fun kv => strStarts kv.1 "download_warning") = none →
        (download_drive_file oracle fid outdir fs).requests
            = [Request.mk driveURL [("id", fid)]]
        ∧ (statusErr r1.status = false →
            (download_drive_file oracle fid outdir fs).fs.files
                (pathJoin outdir (extract_filename r1 fid)) = some r1.body))
    ∧ (∀ k v, rd1.cookies.find? (fun kv => strStarts kv.1 "download_warning") = some (k, v) →
      v ≠ "" →
      (download_doc_export oracle did outdir fmt fs).requests
          = [Request.mk (docURL did) [("format", fmt)], docReq2 did fmt v]
        ∧ (∀ r2, oracle (docReq2 did fmt v) = Except.ok r2 →
            statusErr r2.status = false →
            (download_doc_export oracle did outdir fmt fs).fs.files
                (pathJoin outdir (did ++ "_export" ++ docExt fmt)) = some r2.body))
    ∧ (∀ k, rd1.cookies.find? (fun kv => strStarts kv.1 "download_warning") = some (k, "") →
        (download_doc_export oracle did outdir fmt fs).requests
            = [Request.mk (docURL did) [("format", fmt)]]
        ∧ (statusErr rd1.status = false →
            (download_doc_export oracle did outdir fmt fs).fs.files
                (pathJoin outdir (did ++ "_export" ++ docExt fmt)) = some rd1.body))
    ∧ (rd1.cookies.find? (fun kv => strStarts kv.1 "download_warning") = none →
        (download_doc_export oracle did outdir fmt fs).requests
            = [Request.mk (docURL did) [("format", fmt)]]
        ∧ (statusErr rd1.status = false →
            (download_doc_export oracle did outdir fmt fs).fs.files
                (pathJoin outdir (did ++ "_export" ++ docExt fmt)) = some rd1.body)) := by
  refine ⟨?_, ?_, ?_, ?_, ?_, ?_⟩
  · intro k v hfind hv
    have hg : get_confirm_token r1 = some v := by
      rw [get_confirm_token, hfind]
    constructor
    · simp only [download_drive_file, h1, hg]
      rw [if_neg hv]
      cases ho2 : oracle (driveReq2 fid v) with
      | error e =>
        rw [driveReq2] at ho2
        simp only [ho2]
        rfl
      | ok r2 =>
        rw [driveReq2] at ho2
        simp only [ho2]
        rw [finishDrive_requests]
        rfl
    · intro r2 ho2 hst
      rw [driveReq2] at ho2
      simp only [download_drive_file, h1, hg]
      rw [if_neg hv]
      simp only [ho2]
      rw [finishDrive, if_neg (by simp [hst])]
      exact persistAt_files_self r2 (extract_filename r2 fid) outdir fs
  · intro k hfind
    have hg : get_confirm_token r1 = some "" := by
      rw [get_confirm_token, hfind]
    constructor
    · simp only [download_drive_file, h1, hg]
      rw [if_pos trivial, finishDrive_requests]
    · intro hst
      simp only [download_drive_file, h1, hg]
      rw [if_pos trivial, finishDrive, if_neg (by simp [hst])]
      exact persistAt_files_self r1 (extract_filename r1 fid) outdir fs
  · intro hfind
    have hg : get_confirm_token r1 = none := by
      rw [get_confirm_token, hfind]
    constructor
    · simp only [download_drive_file, h1, hg]
      rw [finishDrive_requests]
    · intro hst
      simp only [download_drive_file, h1, hg]
      rw [finishDrive, if_neg (by simp [hst])]
      exact persistAt_files_self r1 (extract_filename r1 fid) outdir fs
  · intro k v hfind hv
    have hg : get_confirm_token rd1 = some v := by
      rw [get_confirm_token, hfind]
    constructor
    · simp only [download_doc_export, hd1, hg]
      rw [if_neg hv]
      cases ho2 : oracle (docReq2 did fmt v) with
      | error e =>
        rw [docReq2] at ho2
        simp only [ho2]
        rfl
      | ok r2 =>
        rw [docReq2] at ho2
        simp only [ho2]
        rw [finishDoc_requests]
        rfl
    · intro r2 ho2 hst
      rw [docReq2] at ho2
      simp only [download_doc_export, hd1, hg]
      rw [if_neg hv]
      simp only [ho2]
      rw [finishDoc, if_neg (by simp [hst])]
      exact persistAt_files_self r2 (did ++ "_export" ++ docExt fmt) outdir fs
  · intro k hfind
    have hg : get_confirm_token rd1 = some "" := by
      rw [get_confirm_token, hfind]
    constructor
    · simp only [download_doc_export, hd1, hg]
      rw [if_pos trivial, finishDoc_requests]
    · intro hst
      simp only [download_doc_export, hd1, hg]
      rw [if_pos trivial, finishDoc, if_neg (by simp [hst])]
      exact persistAt_files_self rd1 (did ++ "_export" ++ docExt fmt) outdir fs
  · intro hfind
    have hg : get_confirm_token rd1 = none := by
      rw [get_confirm_token, hfind]
    constructor
    · simp only [download_doc_export, hd1, hg]
      rw [finishDoc_requests]
    · intro hst
      simp only [download_doc_export, hd1, hg]
      rw [finishDoc, if_neg (by simp [hst])]
      exact persistAt_files_self rd1 (did ++ "_export" ++ docExt fmt) outdir fs

/-- A session that answers the first Drive request with the interstitial
(cookie `download_warning_a = tok`) and every other request — the confirm
retry and the document request among them — with a plain cookieless body. -/
def oracleConfirm : Request → Except String Response :=
  fun q => if q = Request.mk driveURL [("id", "F")]
    then Except.ok (Response.mk 200 [] [("download_warning_a", "tok")] [1])
    else Except.ok (Response.mk 200 [] [] [9, 9])

/-- claim2 witness: the amended theorem applied to `oracleConfirm`: for the
Drive file, two requests are issued and the second response's body `[9, 9]`
is what lands in the file; for the document export, whose first response has
no `download_warning` cookie, a single request is issued and its own body is
persisted. -/
theorem claim2_confirm_witness :
    (oracleConfirm (Request.mk driveURL [("id", "F")])
        = Except.ok (Response.mk 200 [] [("download_warning_a", "tok")] [1]))
    ∧ ((Response.mk 200 [] [("download_warning_a", "tok")] [1]).cookies.find?
        (fun kv => strStarts kv.1 "download_warning") = some ("download_warning_a", "tok"))
    ∧ (download_drive_file oracleConfirm "F" "out" emptyFS).requests
        = [Request.mk driveURL [("id", "F")], driveReq2 "F" "tok"]
    ∧ (download_drive_file oracleConfirm "F" "out" emptyFS).fs.files
        (pathJoin "out" (extract_filename (Response.mk 200 [] [] [9, 9]) "F"))
        = some [9, 9]
    ∧ (oracleConfirm (Request.mk (docURL "D") [("format", "pdf")])
        = Except.ok (Response.mk 200 [] [] [9, 9]))
    ∧ ((Response.mk 200 [] [] [9, 9]).cookies.find?
        (fun kv => strStarts kv.1 "download_warning") = none)
    ∧ (download_doc_export oracleConfirm "D" "out" "pdf" emptyFS).requests
        = [Request.mk (docURL "D") [("format", "pdf")]]
    ∧ (download_doc_export oracleConfirm "D" "out" "pdf" emptyFS).fs.files
        (pathJoin "out" ("D" ++ "_export" ++ docExt "pdf")) = some [9, 9] := by
  have hmain := claim2_confirm oracleConfirm "F" "D" "out" "pdf" emptyFS
    (Response.mk 200 [] [("download_warning_a", "tok")] [1])
    (Response.mk 200 [] [] [9, 9]) rfl rfl
  have h2 := hmain.1 "download_warning_a" "tok" (by decide) (by decide)
  have h3 := hmain.2.2.2.2.2 (by decide)
  exact ⟨rfl, by decide, h2.1,
    h2.2 (Response.mk 200 [] [] [9, 9]) rfl (by decide),
    rfl, by decide, h3.1, h3.2 (by decide)⟩

/-! ### Claims 9 and 7: error handling order and document naming -/

theorem download_drive_split (oracle : Request → Except String Response)
    (fid outdir : String) (fs : FS) :
    (∃ e, download_drive_file oracle fid outdir fs
        = ⟨[Request.mk driveURL [("id", fid)]], fs, Except.error e⟩)
    ∨ (∃ t e, download_drive_file oracle fid outdir fs
        = ⟨[Request.mk driveURL [("id", fid)], driveReq2 fid t], fs, Except.error e⟩)
    ∨ (∃ reqs r, download_drive_file oracle fid outdir fs = finishDrive reqs r fid outdir fs) := by
  cases ho1 : oracle (Request.mk driveURL [("id", fid)]) with
  | error e =>
    left
    exact ⟨e, by simp only [download_drive_file, ho1]⟩
  | ok r1 =>
    cases hg : get_confirm_token r1 with
    | none =>
      right; right
      exact ⟨[Request.mk driveURL [("id", fid)]], r1,
        by simp only [download_drive_file, ho1, hg]⟩
    | some t =>
      by_cases ht : t = ""
      · right; right
        refine ⟨[Request.mk driveURL [("id", fid)]], r1, ?_⟩
        simp only [download_drive_file, ho1, hg]
        rw [if_pos ht]
      · cases ho2 : oracle (driveReq2 fid t) with
        | error e =>
          right; left
          refine ⟨t, e, ?_⟩
          rw [driveReq2] at ho2
          simp only [download_drive_file, ho1, hg, ho2]
          rw [if_neg ht]
          rfl
        | ok r2 =>
          right; right
          refine ⟨[Request.mk driveURL [("id", fid)],
            Request.mk driveURL [("id", fid), ("confirm", t)]], r2, ?_⟩
          rw [driveReq2] at ho2
          simp only [download_drive_file, ho1, hg, ho2]
          rw [if_neg ht]

theorem download_doc_split (oracle : Request → Except String Response)
    (did outdir fmt : String) (fs : FS) :
    (∃ e, download_doc_export oracle did outdir fmt fs
        = ⟨[Request.mk (docURL did) [("format", fmt)]], fs, Except.error e⟩)
    ∨ (∃ t e, download_doc_export oracle did outdir fmt fs
        = ⟨[Request.mk (docURL did) [("format", fmt)], docReq2 did fmt t], fs, Except.error e⟩)
    ∨ (∃ reqs r, download_doc_export oracle did outdir fmt fs
        = finishDoc reqs r did outdir fmt fs) := by
  cases ho1 : oracle (Request.mk (docURL did) [("format", fmt)]) with
  | error e =>
    left
    exact ⟨e, by simp only [download_doc_export, ho1]⟩
  | ok r1 =>
    cases hg : get_confirm_token r1 with
    | none =>
      right; right
      exact ⟨[Request.mk (docURL did) [("format", fmt)]], r1,
        by simp only [download_doc_export, ho1, hg]⟩
    | some t =>
      by_cases ht : t = ""
      · right; right
        refine ⟨[Request.mk (docURL did) [("format", fmt)]], r1, ?_⟩
        simp only [download_doc_export, ho1, hg]
        rw [if_pos ht]
      · cases ho2 : oracle (docReq2 did fmt t) with
        | error e =>
          right; left
          refine ⟨t, e, ?_⟩
          rw [docReq2] at ho2
          simp only [download_doc_export, ho1, hg, ho2]
          rw [if_neg ht]
          rfl
        | ok r2 =>
          right; right
          refine ⟨[Request.mk (docURL did) [("format", fmt)],
            Request.mk (docURL did) [("format", fmt), ("confirm", t)]], r2, ?_⟩
          rw [docReq2] at ho2
          simp only [download_doc_export, ho1, hg, ho2]
          rw [if_neg ht]

theorem finishDrive_error_fs (reqs : List Request) (r : Response) (fid outdir : String)
    (fs : FS) (e : String) (h : (finishDrive reqs r fid outdir fs).result = Except.error e) :
    (finishDrive reqs r fid outdir fs).fs = fs := by
  rw [finishDrive] at h ⊢
  by_cases hst : statusErr r.status = true
  · rw [if_pos hst]
  · rw [if_neg hst] at h
    simp at h

theorem finishDoc_error_fs (reqs : List Request) (r : Response) (did outdir fmt : String)
    (fs : FS) (e : String) (h : (finishDoc reqs r did outdir fmt fs).result = Except.error e) :
    (finishDoc reqs r did outdir fmt fs).fs = fs := by
  rw [finishDoc] at h ⊢
  by_cases hst : statusErr r.status = true
  · rw [if_pos hst]
  · rw [if_neg hst] at h
    simp at h

theorem finishDoc_ok_cases (reqs : List Request) (r : Response) (did outdir fmt : String)
    (fs : FS) (fname : String)
    (h : (finishDoc reqs r did outdir fmt fs).result = Except.ok fname) :
    fname = did ++ "_export" ++ docExt fmt
    ∧ (finishDoc reqs r did outdir fmt fs).fs.files (pathJoin outdir fname) = some r.body := by
  rw [finishDoc] at h ⊢
  by_cases hst : statusErr r.status = true
  · rw [if_pos hst] at h
    simp at h
  · rw [if_neg hst] at h ⊢
    have hname : fname = did ++ "_export" ++ docExt fmt := by
      simpa using h.symm
    subst hname
    exact ⟨rfl, persistAt_files_self r _ outdir fs⟩

/-- claim9 (confirmed): every failing download — in particular one whose
final response carries an HTTP error status, which `raise_for_status` turns
into an exception before the directory is created and before the file is
opened — leaves the filesystem exactly as it was. -/
theorem claim9_no_write_on_error (oracle : Request → Except String Response)
    (fid did outdir fmt : String) (fs : FS) :
    (∀ e, (download_drive_file oracle fid outdir fs).result = Except.error e →
        (download_drive_file oracle fid outdir fs).fs = fs)
    ∧ (∀ e, (download_doc_export oracle did outdir fmt fs).result = Except.error e →
        (download_doc_export oracle did outdir fmt fs).fs = fs)
    ∧ (∀ r1, oracle (Request.mk driveURL [("id", fid)]) = Except.ok r1 →
        get_confirm_token r1 = none → statusErr r1.status = true →
        (download_drive_file oracle fid outdir fs).result = Except.error "HTTPError")
    ∧ (∀ r1 t r2, oracle (Request.mk driveURL [("id", fid)]) = Except.ok r1 →
        get_confirm_token r1 = some t → t ≠ "" →
        oracle (driveReq2 fid t) = Except.ok r2 →
        statusErr r2.status = true →
        (download_drive_file oracle fid outdir fs).result = Except.error "HTTPError")
    ∧ (∀ r1, oracle (Request.mk (docURL did) [("format", fmt)]) = Except.ok r1 →
        get_confirm_token r1 = none → statusErr r1.status = true →
        (download_doc_export oracle did outdir fmt fs).result = Except.error "HTTPError") := by
  refine ⟨?_, ?_, ?_, ?_, ?_⟩
  · intro e h
    rcases download_drive_split oracle fid outdir fs with ⟨e2, heq⟩ | ⟨t, e2, heq⟩ | ⟨reqs, r, heq⟩
    · rw [heq]
    · rw [heq]
    · rw [heq] at h ⊢
      exact finishDrive_error_fs reqs r fid outdir fs e h
  · intro e h
    rcases download_doc_split oracle did outdir fmt fs with
      ⟨e2, heq⟩ | ⟨t, e2, heq⟩ | ⟨reqs, r, heq⟩
    · rw [heq]
    · rw [heq]
    · rw [heq] at h ⊢
      exact finishDoc_error_fs reqs r did outdir fmt fs e h
  · intro r1 h1 hg hst
    simp only [download_drive_file, h1, hg]
    rw [finishDrive, if_pos hst]
  · intro r1 t r2 h1 hg ht ho2 hst
    rw [driveReq2] at ho2
    simp only [download_drive_file, h1, hg, ho2]
    rw [if_neg ht]
    rw [finishDrive, if_pos hst]
  · intro r1 h1 hg hst
    simp only [download_doc_export, h1, hg]
    rw [finishDoc, if_pos hst]

/-- A session whose every response is a 404. -/
def oracle404 : Request → Except String Response :=
  fun _ => Except.ok (Response.mk 404 [] [] [3])

/-- claim9 witness: against a session answering 404 to everything, both
routines raise `HTTPError` and leave the filesystem untouched. -/
theorem claim9_no_write_on_error_witness :
    (download_drive_file oracle404 "F" "out" emptyFS).result = Except.error "HTTPError"
    ∧ (download_drive_file oracle404 "F" "out" emptyFS).fs = emptyFS
    ∧ (download_doc_export oracle404 "D" "out" "pdf" emptyFS).result = Except.error "HTTPError"
    ∧ (download_doc_export oracle404 "D" "out" "pdf" emptyFS).fs = emptyFS :=
  ⟨rfl,
   (claim9_no_write_on_error oracle404 "F" "D" "out" "pdf" emptyFS).1 "HTTPError" rfl,
   rfl,
   (claim9_no_write_on_error oracle404 "F" "D" "out" "pdf" emptyFS).2.1 "HTTPError" rfl⟩

/-- The status, cookies and body of a response — everything except its
headers. -/
def respCore : Except String Response → Except String (Nat × List (String × String) × List Nat)
  | Except.error e => Except.error e
  | Except.ok r => Except.ok (r.status, r.cookies, r.body)

theorem finishDoc_congr (reqs : List Request) (r r2 : Response) (did outdir fmt : String)
    (fs : FS) (hst : r.status = r2.status) (hb : r.body = r2.body) :
    finishDoc reqs r did outdir fmt fs = finishDoc reqs r2 did outdir fmt fs := by
  rw [finishDoc, finishDoc, hst]
  by_cases h : statusErr r2.status = true
  · rw [if_pos h, if_pos h]
  · rw [if_neg h, if_neg h, persistAt, persistAt, hb]

/-- claim7 (confirmed): `download_doc_export` never consults any response
header — replacing every response's headers by anything else leaves the
requests, the filesystem effect and the result unchanged — and whenever it
succeeds, the saved filename is exactly `<did>_export<ext>` with the
extension determined by the format, and a file exists at that destination
path. -/
theorem claim7_doc_naming (oracle oracle2 : Request → Except String Response)
    (did outdir fmt : String) (fs : FS) :
    ((∀ q, respCore (oracle q) = respCore (oracle2 q)) →
      download_doc_export oracle did outdir fmt fs
        = download_doc_export oracle2 did outdir fmt fs)
    ∧ (∀ fname, (download_doc_export oracle did outdir fmt fs).result = Except.ok fname →
        fname = did ++ "_export" ++ (if fmt = "pdf" then ".pdf" else ".docx")
        ∧ (download_doc_export oracle did outdir fmt fs).fs.files (pathJoin outdir fname)
            ≠ none) := by
  constructor
  · intro hq
    have hc1 := hq (Request.mk (docURL did) [("format", fmt)])
    cases ho1 : oracle (Request.mk (docURL did) [("format", fmt)]) with
    | error e =>
      rw [ho1] at hc1
      cases ho1b : oracle2 (Request.mk (docURL did) [("format", fmt)]) with
      | error e2 =>
        rw [ho1b] at hc1
        simp only [respCore, Except.error.injEq] at hc1
        subst hc1
        simp only [download_doc_export, ho1, ho1b]
      | ok r1b =>
        rw [ho1b] at hc1
        simp [respCore] at hc1
    | ok r1 =>
      rw [ho1] at hc1
      cases ho1b : oracle2 (Request.mk (docURL did) [("format", fmt)]) with
      | error e2 =>
        rw [ho1b] at hc1
        simp [respCore] at hc1
      | ok r1b =>
        rw [ho1b] at hc1
        simp only [respCore, Except.ok.injEq, Prod.mk.injEq] at hc1
        obtain ⟨hst1, hck1, hb1⟩ := hc1
        have hgb : get_confirm_token r1b = get_confirm_token r1 := by
          rw [get_confirm_token, get_confirm_token, hck1]
        cases hg : get_confirm_token r1 with
        | none =>
          rw [hg] at hgb
          simp only [download_doc_export, ho1, ho1b, hg, hgb]
          exact finishDoc_congr _ r1 r1b did outdir fmt fs hst1 hb1
        | some t =>
          rw [hg] at hgb
          by_cases ht : t = ""
          · simp only [download_doc_export, ho1, ho1b, hg, hgb]
            rw [if_pos ht, if_pos ht]
            exact finishDoc_congr _ r1 r1b did outdir fmt fs hst1 hb1
          · have hc2 := hq (docReq2 did fmt t)
            rw [docReq2] at hc2
            cases ho2 : oracle (Request.mk (docURL did) [("format", fmt), ("confirm", t)]) with
            | error e =>
              rw [ho2] at hc2
              cases ho2b : oracle2
                  (Request.mk (docURL did) [("format", fmt), ("confirm", t)]) with
              | error e2 =>
                rw [ho2b] at hc2
                simp only [respCore, Except.error.injEq] at hc2
                subst hc2
                simp only [download_doc_export, ho1, ho1b, hg, hgb]
                rw [if_neg ht, if_neg ht]
                simp only [ho2, ho2b]
              | ok r2b =>
                rw [ho2b] at hc2
                simp [respCore] at hc2
            | ok r2 =>
              rw [ho2] at hc2
              cases ho2b : oracle2
                  (Request.mk (docURL did) [("format", fmt), ("confirm", t)]) with
              | error e2 =>
                rw [ho2b] at hc2
                simp [respCore] at hc2
              | ok r2b =>
                rw [ho2b] at hc2
                simp only [respCore, Except.ok.injEq, Prod.mk.injEq] at hc2
                obtain ⟨hst2, _, hb2⟩ := hc2
                simp only [download_doc_export, ho1, ho1b, hg, hgb]
                rw [if_neg ht, if_neg ht]
                simp only [ho2, ho2b]
                exact finishDoc_congr _ r2 r2b did outdir fmt fs hst2 hb2
  · intro fname hok
    rcases download_doc_split oracle did outdir fmt fs with
      ⟨e2, heq⟩ | ⟨t, e2, heq⟩ | ⟨reqs, r, heq⟩
    · rw [heq] at hok
      simp at hok
    · rw [heq] at hok
      simp at hok
    · rw [heq] at hok ⊢
      obtain ⟨hname, hfile⟩ := finishDoc_ok_cases reqs r did outdir fmt fs fname hok
      refine ⟨by rw [hname]; rfl, ?_⟩
      rw [hfile]
      intro hc
      exact absurd hc (by simp)

/-- A session whose responses carry a Content-Disposition header (which the
document exporter must ignore). -/
def oracleDocHdr : Request → Except String Response :=
  fun _ => Except.ok (Response.mk 200
    [("Content-Disposition", "attachment; filename=\"evil.bin\"")] [] [7, 7])

/-- The same session with all headers removed. -/
def oracleDocNoHdr : Request → Except String Response :=
  fun _ => Except.ok (Response.mk 200 [] [] [7, 7])

/-- claim7 witness: the theorem applied to two concrete sessions differing
only in headers — the runs coincide — and to a successful export, whose file
is named `D_export.pdf` regardless of the Content-Disposition header. -/
theorem claim7_doc_naming_witness :
    ((∀ q : Request, respCore (oracleDocHdr q) = respCore (oracleDocNoHdr q))
      ∧ download_doc_export oracleDocHdr "D" "out" "pdf" emptyFS
          = download_doc_export oracleDocNoHdr "D" "out" "pdf" emptyFS)
    ∧ ((download_doc_export oracleDocHdr "D" "out" "pdf" emptyFS).result
          = Except.ok "D_export.pdf"
      ∧ ("D_export.pdf" : String) = "D" ++ "_export" ++ (if ("pdf" : String) = "pdf"
          then ".pdf" else ".docx")
      ∧ (download_doc_export oracleDocHdr "D" "out" "pdf" emptyFS).fs.files
          (pathJoin "out" "D_export.pdf") ≠ none) := by
  have h1 := (claim7_doc_naming oracleDocHdr oracleDocNoHdr "D" "out" "pdf" emptyFS).1
    (fun q => rfl)
  have h2 := (claim7_doc_naming oracleDocHdr oracleDocNoHdr "D" "out" "pdf" emptyFS).2
    "D_export.pdf" rfl
  exact ⟨⟨fun q => rfl, h1⟩, rfl, h2.1, h2.2⟩

/-! ### Claim 6: the folder crawl -/

theorem lunion_mem (a b : List String) (x : String) : x ∈ lunion a b ↔ x ∈ a ∨ x ∈ b := by
  rw [lunion, List.mem_dedup, List.mem_append]

theorem crawlStep_fold_mem (pageSource : String → String) : ∀ (fl : List String)
    (acc : List String × List String) (x : String),
    (x ∈ (fl.foldl (crawlStep pageSource) acc).1 ↔
      x ∈ acc.1 ∨ ∃ f ∈ fl, x ∈ extractFileIds (pageSource f))
    ∧ (x ∈ (fl.foldl (crawlStep pageSource) acc).2 ↔
      x ∈ acc.2 ∨ ∃ f ∈ fl, x ∈ extractDocIds (pageSource f)) := by
  intro fl
  induction fl with
  | nil =>
    intro acc x
    simp
  | cons g rest ih =>
    intro acc x
    rw [List.foldl_cons]
    constructor
    · rw [(ih (crawlStep pageSource acc g) x).1]
      have hstep : x ∈ (crawlStep pageSource acc g).1 ↔
          x ∈ acc.1 ∨ x ∈ extractFileIds (pageSource g) :=
        lunion_mem _ _ x
      rw [hstep, List.exists_mem_cons_iff]
      tauto
    · rw [(ih (crawlStep pageSource acc g) x).2]
      have hstep : x ∈ (crawlStep pageSource acc g).2 ↔
          x ∈ acc.2 ∨ x ∈ extractDocIds (pageSource g) :=
        lunion_mem _ _ x
      rw [hstep, List.exists_mem_cons_iff]
      tauto

/-- claim6 (confirmed): the crawl of a Target URL navigates exactly the
distinct folder URLs extracted from the page's own markup, each exactly
once; the final file/doc ID sets are the union of the page's IDs with the
IDs of each such folder's markup; and no folder URL that appears only inside
a folder's markup is ever navigated (one level deep). -/
theorem claim6_folder_crawl (pageSource : String → String) (url : String) :
    ((crawlUrl pageSource url).folderNavs = extractFolders (pageSource url))
    ∧ (∀ g, (crawlUrl pageSource url).folderNavs.count g
        = if g ∈ extractFolders (pageSource url) then 1 else 0)
    ∧ (∀ x, x ∈ (crawlUrl pageSource url).files ↔
        x ∈ extractFileIds (pageSource url)
        ∨ ∃ f ∈ extractFolders (pageSource url), x ∈ extractFileIds (pageSource f))
    ∧ (∀ x, x ∈ (crawlUrl pageSource url).docs ↔
        x ∈ extractDocIds (pageSource url)
        ∨ ∃ f ∈ extractFolders (pageSource url), x ∈ extractDocIds (pageSource f)) := by
  refine ⟨rfl, ?_, ?_, ?_⟩
  · intro g
    by_cases hg : g ∈ extractFolders (pageSource url)
    · rw [if_pos hg]
      exact List.count_eq_one_of_mem (List.nodup_dedup _) hg
    · rw [if_neg hg]
      exact List.count_eq_zero.mpr hg
  · intro x
    exact (crawlStep_fold_mem pageSource (extractFolders (pageSource url))
      (extractFileIds (pageSource url), extractDocIds (pageSource url)) x).1
  · intro x
    exact (crawlStep_fold_mem pageSource (extractFolders (pageSource url))
      (extractFileIds (pageSource url), extractDocIds (pageSource url)) x).2


/-! ### Claim 10: duplicate Target URLs -/

theorem dictFind_insert_self : ∀ (m : List (String × Entry)) (k : String) (v : Entry),
    dictFind (dictInsert m k v) k = some v := by
  intro m
  induction m with
  | nil =>
    intro k v
    simp only [dictInsert, dictFind]
    rw [if_pos (by simp)]
  | cons kv rest ih =>
    intro k v
    by_cases h : (kv.1 == k) = true
    · simp only [dictInsert]
      rw [if_pos h]
      simp only [dictFind]
      rw [if_pos (by simp)]
    · simp only [dictInsert]
      rw [if_neg h]
      simp only [dictFind]
      rw [if_neg h]
      exact ih k v

theorem dictFind_insert_other : ∀ (m : List (String × Entry)) (k k2 : String) (v : Entry),
    k2 ≠ k → dictFind (dictInsert m k v) k2 = dictFind m k2 := by
  intro m
  induction m with
  | nil =>
    intro k k2 v hne
    simp only [dictInsert, dictFind]
    rw [if_neg (by simp; intro hc; exact hne hc.symm)]
  | cons kv rest ih =>
    intro k k2 v hne
    by_cases h : (kv.1 == k) = true
    · have hk : kv.1 = k := by simpa using h
      simp only [dictInsert]
      rw [if_pos h]
      simp only [dictFind]
      rw [if_neg (by simp; intro hc; exact hne hc.symm),
        if_neg (by rw [hk]; simp; intro hc; exact hne hc.symm)]
    · simp only [dictInsert]
      rw [if_neg h]
      simp only [dictFind]
      by_cases h2 : (kv.1 == k2) = true
      · rw [if_pos h2, if_pos h2]
      · rw [if_neg h2, if_neg h2]
        exact ih k k2 v hne

theorem dictKeys_mem : ∀ (m : List (String × Entry)) (k : String) (v : Entry) (k2 : String),
    k2 ∈ (dictInsert m k v).map Prod.fst ↔ k2 ∈ m.map Prod.fst ∨ k2 = k := by
  intro m
  induction m with
  | nil =>
    intro k v k2
    simp [dictInsert]
  | cons kv rest ih =>
    intro k v k2
    by_cases h : (kv.1 == k) = true
    · have hk : kv.1 = k := by simpa using h
      simp only [dictInsert]
      rw [if_pos h]
      simp only [List.map_cons, List.mem_cons, hk]
      tauto
    · simp only [dictInsert]
      rw [if_neg h]
      simp only [List.map_cons, List.mem_cons, ih]
      tauto

theorem dictKeys_nodup : ∀ (m : List (String × Entry)) (k : String) (v : Entry),
    (m.map Prod.fst).Nodup → ((dictInsert m k v).map Prod.fst).Nodup := by
  intro m
  induction m with
  | nil =>
    intro k v _
    simp [dictInsert]
  | cons kv rest ih =>
    intro k v hnd
    rw [List.map_cons, List.nodup_cons] at hnd
    by_cases h : (kv.1 == k) = true
    · have hk : kv.1 = k := by simpa using h
      simp only [dictInsert]
      rw [if_pos h]
      rw [List.map_cons, List.nodup_cons]
      rw [← hk]
      exact hnd
    · have hk : kv.1 ≠ k := by simpa using h
      simp only [dictInsert]
      rw [if_neg h]
      rw [List.map_cons, List.nodup_cons]
      constructor
      · intro hc
        rw [dictKeys_mem] at hc
        rcases hc with hc | hc
        · exact hnd.1 hc
        · exact hk hc
      · exact ih k v hnd.2

theorem dictInsert_mem_entry : ∀ (m : List (String × Entry)) (k : String) (v : Entry)
    (kv2 : String × Entry), kv2 ∈ dictInsert m k v → kv2 ∈ m ∨ kv2 = (k, v) := by
  intro m
  induction m with
  | nil =>
    intro k v kv2 hm
    simp only [dictInsert] at hm
    rcases List.mem_cons.mp hm with h1 | h1
    · exact Or.inr h1
    · simp at h1
  | cons kv rest ih =>
    intro k v kv2 hm
    by_cases h : (kv.1 == k) = true
    · simp only [dictInsert] at hm
      rw [if_pos h] at hm
      rcases List.mem_cons.mp hm with h1 | h1
      · exact Or.inr h1
      · exact Or.inl (List.mem_cons_of_mem kv h1)
    · simp only [dictInsert] at hm
      rw [if_neg h] at hm
      rcases List.mem_cons.mp hm with h1 | h1
      · exact Or.inl (by rw [h1]; exact List.mem_cons_self kv rest)
      · rcases ih k v kv2 h1 with h2 | h2
        · exact Or.inl (List.mem_cons_of_mem kv h2)
        · exact Or.inr h2

theorem crawlPhase_keys (ps : Nat → String → String) (pathOf : String → String) :
    ∀ (us : List String) (k : Nat) (m : List (String × Entry)),
    (∀ x, x ∈ (crawlPhase ps pathOf us k m).2.map Prod.fst ↔
        x ∈ m.map Prod.fst ∨ x ∈ us)
    ∧ ((m.map Prod.fst).Nodup → ((crawlPhase ps pathOf us k m).2.map Prod.fst).Nodup) := by
  intro us
  induction us with
  | nil =>
    intro k m
    constructor
    · intro x
      simp [crawlPhase]
    · intro h
      simpa [crawlPhase] using h
  | cons u rest ih =>
    intro k m
    constructor
    · intro x
      simp only [crawlPhase]
      rw [(ih (k + 1) (dictInsert m u (mkEntry ps pathOf k u))).1 x, dictKeys_mem,
        List.mem_cons]
      tauto
    · intro hnd
      simp only [crawlPhase]
      exact (ih (k + 1) _).2 (dictKeys_nodup m u _ hnd)

theorem crawlPhase_find_untouched (ps : Nat → String → String) (pathOf : String → String) :
    ∀ (us : List String) (k : Nat) (m : List (String × Entry)) (u : String), u ∉ us →
    dictFind (crawlPhase ps pathOf us k m).2 u = dictFind m u := by
  intro us
  induction us with
  | nil =>
    intro k m u _
    rfl
  | cons u2 rest ih =>
    intro k m u hu
    rw [List.mem_cons] at hu
    push_neg at hu
    simp only [crawlPhase]
    rw [ih (k + 1) _ u hu.2, dictFind_insert_other m u2 u _ hu.1]

theorem crawlPhase_find_last (ps : Nat → String → String) (pathOf : String → String) :
    ∀ (us : List String) (k : Nat) (m : List (String × Entry)) (u : String) (i : Nat),
    us.get? i = some u →
    (∀ j, j < us.length → i < j → us.get? j ≠ some u) →
    dictFind (crawlPhase ps pathOf us k m).2 u = some (mkEntry ps pathOf (k + i) u) := by
  intro us
  induction us with
  | nil =>
    intro k m u i hget _
    simp at hget
  | cons u2 rest ih =>
    intro k m u i hget hlast
    match i with
    | 0 =>
      have hu : u2 = u := by simpa using hget
      subst hu
      have hnotin : u2 ∉ rest := by
        intro hmem
        obtain ⟨n, hn⟩ := List.mem_iff_get?.mp hmem
        have hlen : n < rest.length := by
          by_contra hge
          rw [List.get?_eq_none.mpr (by omega)] at hn
          exact Option.noConfusion hn
        exact hlast (n + 1) (by simp only [List.length_cons]; omega) (by omega)
          (by simpa using hn)
      simp only [crawlPhase]
      rw [crawlPhase_find_untouched ps pathOf rest (k + 1) _ u2 hnotin,
        dictFind_insert_self, Nat.add_zero]
    | j + 1 =>
      have hget2 : rest.get? j = some u := by simpa using hget
      have hlast2 : ∀ j2, j2 < rest.length → j < j2 → rest.get? j2 ≠ some u := by
        intro j2 hlen hj2 hc
        exact hlast (j2 + 1) (by simp only [List.length_cons]; omega) (by omega)
          (by simpa using hc)
      simp only [crawlPhase]
      rw [ih (k + 1) _ u j hget2 hlast2]
      have harith : k + 1 + j = k + (j + 1) := by omega
      rw [harith]

theorem crawlPhase_navs_count (ps : Nat → String → String) (pathOf : String → String) :
    ∀ (us : List String) (k : Nat) (m : List (String × Entry)) (u : String),
    (crawlPhase ps pathOf us k m).1.count (Nav.target u) = us.count u := by
  intro us
  induction us with
  | nil =>
    intro k m u
    rfl
  | cons u2 rest ih =>
    intro k m u
    simp only [crawlPhase]
    have hzero : ((crawlUrl (ps k) u2).folderNavs.map Nav.folder).count (Nav.target u) = 0 := by
      rw [List.count_eq_zero]
      intro hc
      obtain ⟨f, _, hf⟩ := List.mem_map.mp hc
      exact Nav.noConfusion hf
    rw [List.count_cons, List.count_append, hzero, List.count_cons, ih (k + 1) _ u]
    by_cases hu : u2 = u
    · rw [if_pos (by simp [hu]), if_pos (by simp [hu])]
      omega
    · rw [if_neg (by simp [hu]), if_neg (by simp [hu])]
      omega

/-- claim10 (confirmed): a Target URL supplied `n` times on the command line
is navigated (as a target) exactly `n` times by the crawl phase, but the
`id_map` is keyed by the URL string — its keys are exactly the distinct
input URLs, each key occurring once, and the stored entry is the one
produced by the crawl of the last occurrence — so the download phase
attempts the URL's identifiers once. -/
theorem claim10_duplicate_urls (ps : Nat → String → String) (pathOf : String → String)
    (oracle : Request → Except String Response) (urls : List String) (fs0 : FS) :
    (∀ u, (mainRun ps pathOf oracle urls fs0).navs.count (Nav.target u) = urls.count u)
    ∧ ((mainRun ps pathOf oracle urls fs0).idMap.map Prod.fst).Nodup
    ∧ (∀ u, u ∈ (mainRun ps pathOf oracle urls fs0).idMap.map Prod.fst ↔ u ∈ urls)
    ∧ (∀ u i, urls.get? i = some u →
        (∀ j, j < urls.length → i < j → urls.get? j ≠ some u) →
        dictFind (mainRun ps pathOf oracle urls fs0).idMap u
          = some (mkEntry ps pathOf i u))
    ∧ (∀ u, u ∈ urls →
        ((mainRun ps pathOf oracle urls fs0).idMap.map Prod.fst).count u = 1) := by
  have hmap : (mainRun ps pathOf oracle urls fs0).idMap = (crawlPhase ps pathOf urls 0 []).2 :=
    rfl
  have hnavs : (mainRun ps pathOf oracle urls fs0).navs = (crawlPhase ps pathOf urls 0 []).1 :=
    rfl
  have hkeys := crawlPhase_keys ps pathOf urls 0 []
  refine ⟨?_, ?_, ?_, ?_, ?_⟩
  · intro u
    rw [hnavs, crawlPhase_navs_count]
  · rw [hmap]
    exact hkeys.2 (by simp)
  · intro u
    rw [hmap, hkeys.1 u]
    simp
  · intro u i hget hlast
    rw [hmap, crawlPhase_find_last ps pathOf urls 0 [] u i hget hlast, Nat.zero_add]
  · intro u hu
    have hnd : ((mainRun ps pathOf oracle urls fs0).idMap.map Prod.fst).Nodup := by
      rw [hmap]
      exact hkeys.2 (by simp)
    have hmem : u ∈ (mainRun ps pathOf oracle urls fs0).idMap.map Prod.fst := by
      rw [hmap, hkeys.1 u]
      simp [hu]
    exact List.count_eq_one_of_mem hnd hmem

/-- A crawl oracle whose markup depends on the iteration counter, so that a
re-crawl of the same URL is observable. -/
def psWit : Nat → String → String :=
  fun k _ => if k = 0 then " /file/d/AAA " else " /file/d/BBB "

/-- A trivial URL-path oracle. -/
def poWit : String → String := fun _ => "/p"

/-- claim10 witness: with the same URL given twice, the crawl navigates it
twice, the map holds one entry for it — the one from the second (last)
crawl, whose markup differs — and its key occurs once. -/
theorem claim10_duplicate_urls_witness :
    ((["u", "u"] : List String).get? 1 = some "u")
    ∧ (∀ j, j < (["u", "u"] : List String).length → 1 < j →
        (["u", "u"] : List String).get? j ≠ some "u")
    ∧ dictFind (mainRun psWit poWit oracle404 ["u", "u"] emptyFS).idMap "u"
        = some (mkEntry psWit poWit 1 "u")
    ∧ (mainRun psWit poWit oracle404 ["u", "u"] emptyFS).navs.count (Nav.target "u") = 2
    ∧ ((mainRun psWit poWit oracle404 ["u", "u"] emptyFS).idMap.map Prod.fst).count "u" = 1
    ∧ (mkEntry psWit poWit 1 "u").files = ["BBB"] := by
  have hc := claim10_duplicate_urls psWit poWit oracle404 ["u", "u"] emptyFS
  refine ⟨by decide, by decide, hc.2.2.2.1 "u" 1 (by decide) (by decide), ?_, ?_, by decide⟩
  · rw [hc.1 "u"]
    decide
  · exact hc.2.2.2.2 "u" (by decide)

/-! ### Claim 1: the download phase attempts every identifier exactly once -/

theorem docFold_count_drive (docs : List String) (outdir outdir2 fid : String) :
    (docs.foldr
        (fun did acc => Attempt.doc did outdir "pdf" :: Attempt.doc did outdir "docx" :: acc)
        []).count (Attempt.drive fid outdir2) = 0 := by
  induction docs with
  | nil => rfl
  | cons d rest ih =>
    rw [List.foldr_cons, List.count_cons, List.count_cons, ih]
    simp

theorem docFold_count_pdf (docs : List String) (outdir did : String) :
    (docs.foldr
        (fun d acc => Attempt.doc d outdir "pdf" :: Attempt.doc d outdir "docx" :: acc)
        []).count (Attempt.doc did outdir "pdf") = docs.count did := by
  induction docs with
  | nil => rfl
  | cons d rest ih =>
    rw [List.foldr_cons, List.count_cons, List.count_cons, ih, List.count_cons]
    by_cases hd : d = did
    · simp [hd]
    · simp [hd]

theorem docFold_count_docx (docs : List String) (outdir did : String) :
    (docs.foldr
        (fun d acc => Attempt.doc d outdir "pdf" :: Attempt.doc d outdir "docx" :: acc)
        []).count (Attempt.doc did outdir "docx") = docs.count did := by
  induction docs with
  | nil => rfl
  | cons d rest ih =>
    rw [List.foldr_cons, List.count_cons, List.count_cons, ih, List.count_cons]
    by_cases hd : d = did
    · simp [hd]
    · simp [hd]

theorem mapDrive_count (files : List String) (outdir fid : String) (hnd : files.Nodup)
    (hm : fid ∈ files) :
    (files.map (fun f => Attempt.drive f outdir)).count (Attempt.drive fid outdir) = 1 := by
  rw [List.count_map_of_injective files (fun f => Attempt.drive f outdir)
    (fun a b hab => by simpa using hab) fid]
  exact List.count_eq_one_of_mem hnd hm

theorem mapDrive_count_doc (files : List String) (outdir did outdir2 fmt : String) :
    (files.map (fun f => Attempt.drive f outdir)).count (Attempt.doc did outdir2 fmt) = 0 := by
  rw [List.count_eq_zero]
  intro hc
  obtain ⟨f, _, hf⟩ := List.mem_map.mp hc
  exact Attempt.noConfusion hf

theorem attemptList_count_drive (e : Entry) (fid : String) (hnd : e.files.Nodup)
    (hm : fid ∈ e.files) : (attemptList e).count (Attempt.drive fid e.outdir) = 1 := by
  rw [attemptList, List.count_append, mapDrive_count e.files e.outdir fid hnd hm,
    docFold_count_drive]

theorem attemptList_count_pdf (e : Entry) (did : String) (hnd : e.docs.Nodup)
    (hm : did ∈ e.docs) : (attemptList e).count (Attempt.doc did e.outdir "pdf") = 1 := by
  rw [attemptList, List.count_append, mapDrive_count_doc, docFold_count_pdf]
  rw [List.count_eq_one_of_mem hnd hm]

theorem attemptList_count_docx (e : Entry) (did : String) (hnd : e.docs.Nodup)
    (hm : did ∈ e.docs) : (attemptList e).count (Attempt.doc did e.outdir "docx") = 1 := by
  rw [attemptList, List.count_append, mapDrive_count_doc, docFold_count_docx]
  rw [List.count_eq_one_of_mem hnd hm]

theorem crawlFold_nodup (pageSource : String → String) : ∀ (fl : List String)
    (acc : List String × List String), acc.1.Nodup → acc.2.Nodup →
    (fl.foldl (crawlStep pageSource) acc).1.Nodup
    ∧ (fl.foldl (crawlStep pageSource) acc).2.Nodup := by
  intro fl
  induction fl with
  | nil =>
    intro acc h1 h2
    exact ⟨h1, h2⟩
  | cons g rest ih =>
    intro acc _ _
    rw [List.foldl_cons]
    exact ih (crawlStep pageSource acc g) (List.nodup_dedup _) (List.nodup_dedup _)

theorem crawlUrl_nodup (pageSource : String → String) (url : String) :
    (crawlUrl pageSource url).files.Nodup ∧ (crawlUrl pageSource url).docs.Nodup :=
  crawlFold_nodup pageSource (extractFolders (pageSource url))
    (extractFileIds (pageSource url), extractDocIds (pageSource url))
    (List.nodup_dedup _) (List.nodup_dedup _)

theorem crawlPhase_entries (ps : Nat → String → String) (pathOf : String → String) :
    ∀ (us : List String) (k : Nat) (m : List (String × Entry)),
    (∀ kv ∈ m, kv.2.files.Nodup ∧ kv.2.docs.Nodup) →
    ∀ kv ∈ (crawlPhase ps pathOf us k m).2, kv.2.files.Nodup ∧ kv.2.docs.Nodup := by
  intro us
  induction us with
  | nil =>
    intro k m hm kv hkv
    exact hm kv hkv
  | cons u rest ih =>
    intro k m hm kv hkv
    simp only [crawlPhase] at hkv
    refine ih (k + 1) _ ?_ kv hkv
    intro kv2 hkv2
    rcases dictInsert_mem_entry m u (mkEntry ps pathOf k u) kv2 hkv2 with h | h
    · exact hm kv2 h
    · rw [h]
      exact crawlUrl_nodup (ps k) u

theorem runAttempts_fst (oracle : Request → Except String Response) :
    ∀ (as : List Attempt) (fs : FS), (runAttempts oracle as fs).1.map Prod.fst = as := by
  intro as
  induction as with
  | nil =>
    intro fs
    rfl
  | cons a rest ih =>
    intro fs
    simp only [runAttempts, List.map_cons]
    rw [ih]

theorem downloadPhase_fst (oracle : Request → Except String Response) :
    ∀ (m : List (String × Entry)) (fs : FS),
    (downloadPhase oracle m fs).1.map Prod.fst = m.flatMap (fun kv => attemptList kv.2) := by
  intro m
  induction m with
  | nil =>
    intro fs
    rfl
  | cons ue rest ih =>
    intro fs
    match ue with
    | (u, e) =>
      simp only [downloadPhase, List.map_append]
      rw [runAttempts_fst, ih]
      rfl

/-- claim1 (confirmed): the attempts the download phase makes are exactly
the `id_map`'s identifiers — every file ID once, every doc ID once per
format — and both the map and the attempted identifiers are independent of
the HTTP session's behaviour: exceptions are caught per attempt, so no
failure removes a later identifier from the list, and the run always reaches
its terminal state with the full attempt list. -/
theorem claim1_attempts (ps : Nat → String → String) (pathOf : String → String)
    (oracle oracle2 : Request → Except String Response) (urls : List String) (fs0 : FS) :
    ((mainRun ps pathOf oracle urls fs0).attempts.map Prod.fst
        = (mainRun ps pathOf oracle urls fs0).idMap.flatMap (fun kv => attemptList kv.2))
    ∧ ((mainRun ps pathOf oracle urls fs0).idMap
        = (mainRun ps pathOf oracle2 urls fs0).idMap)
    ∧ ((mainRun ps pathOf oracle urls fs0).attempts.map Prod.fst
        = (mainRun ps pathOf oracle2 urls fs0).attempts.map Prod.fst)
    ∧ (∀ kv ∈ (mainRun ps pathOf oracle urls fs0).idMap, ∀ fid ∈ kv.2.files,
        (attemptList kv.2).count (Attempt.drive fid kv.2.outdir) = 1)
    ∧ (∀ kv ∈ (mainRun ps pathOf oracle urls fs0).idMap, ∀ did ∈ kv.2.docs,
        (attemptList kv.2).count (Attempt.doc did kv.2.outdir "pdf") = 1
        ∧ (attemptList kv.2).count (Attempt.doc did kv.2.outdir "docx") = 1) := by
  have hfst : ∀ orc : Request → Except String Response,
      (mainRun ps pathOf orc urls fs0).attempts.map Prod.fst
        = (crawlPhase ps pathOf urls 0 []).2.flatMap (fun kv => attemptList kv.2) := by
    intro orc
    exact downloadPhase_fst orc (crawlPhase ps pathOf urls 0 []).2 (mkdir "resources" fs0)
  have hent : ∀ kv ∈ (mainRun ps pathOf oracle urls fs0).idMap,
      kv.2.files.Nodup ∧ kv.2.docs.Nodup := by
    intro kv hkv
    exact crawlPhase_entries ps pathOf urls 0 [] (by intro kv2 h2; simp at h2) kv hkv
  refine ⟨hfst oracle, rfl, ?_, ?_, ?_⟩
  · rw [hfst oracle, hfst oracle2]
  · intro kv hkv fid hfid
    exact attemptList_count_drive kv.2 fid (hent kv hkv).1 hfid
  · intro kv hkv did hdid
    exact ⟨attemptList_count_pdf kv.2 did (hent kv hkv).2 hdid,
      attemptList_count_docx kv.2 did (hent kv hkv).2 hdid⟩

/-- A crawl oracle with one file ID and one doc ID in the markup. -/
def psOne : Nat → String → String := fun _ _ => " /file/d/AAA /document/d/DD "

/-- claim1 witness: for one concrete URL whose markup holds file ID `AAA`
and doc ID `DD`, the single map entry attempts `AAA` once and `DD` once per
format, and the attempted list is the map's identifier list even though
every request 404s. -/
theorem claim1_attempts_witness :
    (mainRun psOne poWit oracle404 ["u"] emptyFS).attempts.map Prod.fst
        = (mainRun psOne poWit oracle404 ["u"] emptyFS).idMap.flatMap
            (fun kv => attemptList kv.2)
    ∧ (("u", mkEntry psOne poWit 0 "u") ∈ (mainRun psOne poWit oracle404 ["u"] emptyFS).idMap
      ∧ ("AAA" : String) ∈ (mkEntry psOne poWit 0 "u").files
      ∧ (attemptList (mkEntry psOne poWit 0 "u")).count
          (Attempt.drive "AAA" (mkEntry psOne poWit 0 "u").outdir) = 1)
    ∧ (("DD" : String) ∈ (mkEntry psOne poWit 0 "u").docs
      ∧ (attemptList (mkEntry psOne poWit 0 "u")).count
          (Attempt.doc "DD" (mkEntry psOne poWit 0 "u").outdir "pdf") = 1
      ∧ (attemptList (mkEntry psOne poWit 0 "u")).count
          (Attempt.doc "DD" (mkEntry psOne poWit 0 "u").outdir "docx") = 1) := by
  have hc := claim1_attempts psOne poWit oracle404 oracle404 ["u"] emptyFS
  refine ⟨hc.1, ⟨by decide, by decide, ?_⟩, ⟨by decide, ?_⟩⟩
  · exact hc.2.2.2.1 ("u", mkEntry psOne poWit 0 "u") (by decide) "AAA" (by decide)
  · exact hc.2.2.2.2 ("u", mkEntry psOne poWit 0 "u") (by decide) "DD" (by decide)

/-! ### Claim 8: idempotence of re-downloading

A download's filesystem effect is captured as an `Eff`: the set of
directories it creates and the files it writes. Effects are independent of
the starting filesystem, compose, and are idempotent, which is exactly the
overwrite (never duplicate-rename) behaviour. -/

@[ext]
structure Eff where
  dirs : String → Bool
  files : String → Option (List Nat)

/-- Apply an effect over a filesystem: add its directories, override its
files. -/
def Eff.apply (e : Eff) (fs : FS) : FS :=
  ⟨fun d => e.dirs d || fs.dirs d,
   fun p => match e.files p with
     | some v => some v
     | none => fs.files p⟩

/-- Sequencing `e1` then `e2`, as one effect. -/
def Eff.comp (e2 e1 : Eff) : Eff :=
  ⟨fun d => e2.dirs d || e1.dirs d,
   fun p => match e2.files p with
     | some v => some v
     | none => e1.files p⟩

theorem Eff.apply_apply (e2 e1 : Eff) (fs : FS) :
    e2.apply (e1.apply fs) = (e2.comp e1).apply fs := by
  apply FS.ext
  · funext p
    simp [Eff.apply, Eff.comp, Bool.or_assoc]
  · funext p
    simp only [Eff.apply, Eff.comp]
    rcases h2 : e2.files p with _ | v <;> simp [h2]

theorem Eff.comp_self (e : Eff) : e.comp e = e := by
  apply Eff.ext
  · funext p
    simp [Eff.comp]
  · funext p
    simp only [Eff.comp]
    rcases h : e.files p with _ | v <;> simp [h]

theorem persistAt_apply (r : Response) (fname outdir : String) (fs : FS) :
    persistAt r fname outdir fs
      = (Eff.mk (persistAt r fname outdir emptyFS).dirs
          (persistAt r fname outdir emptyFS).files).apply fs := by
  apply FS.ext
  · funext p
    simp only [persistAt, writeFile, mkdir, Eff.apply, emptyFS, Bool.or_false]
  · funext p
    simp only [persistAt, writeFile, mkdir, Eff.apply, emptyFS]
    by_cases hp : (p == pathJoin outdir fname) = true
    · rw [if_pos hp, if_pos hp]
    · rw [if_neg hp, if_neg hp]

theorem persistAt_idem (r : Response) (fname outdir : String) (fs : FS) :
    persistAt r fname outdir (persistAt r fname outdir fs)
      = persistAt r fname outdir fs := by
  rw [persistAt_apply r fname outdir fs]
  rw [persistAt_apply r fname outdir
    ((Eff.mk (persistAt r fname outdir emptyFS).dirs
      (persistAt r fname outdir emptyFS).files).apply fs)]
  rw [Eff.apply_apply, Eff.comp_self]

theorem download_drive_shape (oracle : Request → Except String Response)
    (fid outdir : String) :
    ((∀ fs, (download_drive_file oracle fid outdir fs).fs = fs)
      ∨ (∃ r fname, ∀ fs, (download_drive_file oracle fid outdir fs).fs
            = persistAt r fname outdir fs))
    ∧ (∀ fs, (download_drive_file oracle fid outdir fs).requests
        = (download_drive_file oracle fid outdir emptyFS).requests
      ∧ (download_drive_file oracle fid outdir fs).result
        = (download_drive_file oracle fid outdir emptyFS).result) := by
  cases ho1 : oracle (Request.mk driveURL [("id", fid)]) with
  | error e =>
    constructor
    · left
      intro fs
      simp only [download_drive_file, ho1]
    · intro fs
      simp only [download_drive_file, ho1]
      exact ⟨by first | rfl | trivial, by first | rfl | trivial⟩
  | ok r1 =>
    have hfin : ∀ (reqs : List Request) (r : Response),
        ((∀ fs, (finishDrive reqs r fid outdir fs).fs = fs)
          ∨ (∃ r2 fname, ∀ fs, (finishDrive reqs r fid outdir fs).fs
              = persistAt r2 fname outdir fs))
        ∧ (∀ fs, (finishDrive reqs r fid outdir fs).requests
            = (finishDrive reqs r fid outdir emptyFS).requests
          ∧ (finishDrive reqs r fid outdir fs).result
            = (finishDrive reqs r fid outdir emptyFS).result) := by
      intro reqs r
      by_cases hst : statusErr r.status = true
      · constructor
        · left
          intro fs
          rw [finishDrive, if_pos hst]
        · intro fs
          rw [finishDrive, if_pos hst, finishDrive, if_pos hst]
          exact ⟨by first | rfl | trivial, by first | rfl | trivial⟩
      · constructor
        · right
          refine ⟨r, extract_filename r fid, ?_⟩
          intro fs
          rw [finishDrive, if_neg hst]
        · intro fs
          rw [finishDrive, if_neg hst, finishDrive, if_neg hst]
          exact ⟨by first | rfl | trivial, by first | rfl | trivial⟩
    cases hg : get_confirm_token r1 with
    | none =>
      constructor
      · rcases (hfin [Request.mk driveURL [("id", fid)]] r1).1 with h | ⟨r2, fname, h⟩
        · left
          intro fs
          simp only [download_drive_file, ho1, hg]
          exact h fs
        · right
          refine ⟨r2, fname, ?_⟩
          intro fs
          simp only [download_drive_file, ho1, hg]
          exact h fs
      · intro fs
        simp only [download_drive_file, ho1, hg]
        exact (hfin [Request.mk driveURL [("id", fid)]] r1).2 fs
    | some t =>
      by_cases ht : t = ""
      · constructor
        · rcases (hfin [Request.mk driveURL [("id", fid)]] r1).1 with h | ⟨r2, fname, h⟩
          · left
            intro fs
            simp only [download_drive_file, ho1, hg]
            rw [if_pos ht]
            exact h fs
          · right
            refine ⟨r2, fname, ?_⟩
            intro fs
            simp only [download_drive_file, ho1, hg]
            rw [if_pos ht]
            exact h fs
        · intro fs
          simp only [download_drive_file, ho1, hg]
          rw [if_pos ht, if_pos ht]
          exact (hfin [Request.mk driveURL [("id", fid)]] r1).2 fs
      · cases ho2 : oracle (Request.mk driveURL [("id", fid), ("confirm", t)]) with
        | error e =>
          constructor
          · left
            intro fs
            simp only [download_drive_file, ho1, hg, ho2]
            rw [if_neg ht]
          · intro fs
            simp only [download_drive_file, ho1, hg, ho2]
            rw [if_neg ht, if_neg ht]
            exact ⟨by first | rfl | trivial, by first | rfl | trivial⟩
        | ok r2 =>
          constructor
          · rcases (hfin [Request.mk driveURL [("id", fid)],
                Request.mk driveURL [("id", fid), ("confirm", t)]] r2).1 with h | ⟨r3, fname, h⟩
            · left
              intro fs
              simp only [download_drive_file, ho1, hg, ho2]
              rw [if_neg ht]
              exact h fs
            · right
              refine ⟨r3, fname, ?_⟩
              intro fs
              simp only [download_drive_file, ho1, hg, ho2]
              rw [if_neg ht]
              exact h fs
          · intro fs
            simp only [download_drive_file, ho1, hg, ho2]
            rw [if_neg ht, if_neg ht]
            exact (hfin [Request.mk driveURL [("id", fid)],
              Request.mk driveURL [("id", fid), ("confirm", t)]] r2).2 fs

theorem download_doc_shape (oracle : Request → Except String Response)
    (did outdir fmt : String) :
    ((∀ fs, (download_doc_export oracle did outdir fmt fs).fs = fs)
      ∨ (∃ r fname, ∀ fs, (download_doc_export oracle did outdir fmt fs).fs
            = persistAt r fname outdir fs))
    ∧ (∀ fs, (download_doc_export oracle did outdir fmt fs).requests
        = (download_doc_export oracle did outdir fmt emptyFS).requests
      ∧ (download_doc_export oracle did outdir fmt fs).result
        = (download_doc_export oracle did outdir fmt emptyFS).result) := by
  cases ho1 : oracle (Request.mk (docURL did) [("format", fmt)]) with
  | error e =>
    constructor
    · left
      intro fs
      simp only [download_doc_export, ho1]
    · intro fs
      simp only [download_doc_export, ho1]
      exact ⟨by first | rfl | trivial, by first | rfl | trivial⟩
  | ok r1 =>
    have hfin : ∀ (reqs : List Request) (r : Response),
        ((∀ fs, (finishDoc reqs r did outdir fmt fs).fs = fs)
          ∨ (∃ r2 fname, ∀ fs, (finishDoc reqs r did outdir fmt fs).fs
              = persistAt r2 fname outdir fs))
        ∧ (∀ fs, (finishDoc reqs r did outdir fmt fs).requests
            = (finishDoc reqs r did outdir fmt emptyFS).requests
          ∧ (finishDoc reqs r did outdir fmt fs).result
            = (finishDoc reqs r did outdir fmt emptyFS).result) := by
      intro reqs r
      by_cases hst : statusErr r.status = true
      · constructor
        · left
          intro fs
          rw [finishDoc, if_pos hst]
        · intro fs
          rw [finishDoc, if_pos hst, finishDoc, if_pos hst]
          exact ⟨by first | rfl | trivial, by first | rfl | trivial⟩
      · constructor
        · right
          refine ⟨r, did ++ "_export" ++ docExt fmt, ?_⟩
          intro fs
          rw [finishDoc, if_neg hst]
        · intro fs
          rw [finishDoc, if_neg hst, finishDoc, if_neg hst]
          exact ⟨by first | rfl | trivial, by first | rfl | trivial⟩
    cases hg : get_confirm_token r1 with
    | none =>
      constructor
      · rcases (hfin [Request.mk (docURL did) [("format", fmt)]] r1).1 with h | ⟨r2, fname, h⟩
        · left
          intro fs
          simp only [download_doc_export, ho1, hg]
          exact h fs
        · right
          refine ⟨r2, fname, ?_⟩
          intro fs
          simp only [download_doc_export, ho1, hg]
          exact h fs
      · intro fs
        simp only [download_doc_export, ho1, hg]
        exact (hfin [Request.mk (docURL did) [("format", fmt)]] r1).2 fs
    | some t =>
      by_cases ht : t = ""
      · constructor
        · rcases (hfin [Request.mk (docURL did) [("format", fmt)]] r1).1 with h | ⟨r2, fname, h⟩
          · left
            intro fs
            simp only [download_doc_export, ho1, hg]
            rw [if_pos ht]
            exact h fs
          · right
            refine ⟨r2, fname, ?_⟩
            intro fs
            simp only [download_doc_export, ho1, hg]
            rw [if_pos ht]
            exact h fs
        · intro fs
          simp only [download_doc_export, ho1, hg]
          rw [if_pos ht, if_pos ht]
          exact (hfin [Request.mk (docURL did) [("format", fmt)]] r1).2 fs
      · cases ho2 : oracle (Request.mk (docURL did) [("format", fmt), ("confirm", t)]) with
        | error e =>
          constructor
          · left
            intro fs
            simp only [download_doc_export, ho1, hg, ho2]
            rw [if_neg ht]
          · intro fs
            simp only [download_doc_export, ho1, hg, ho2]
            rw [if_neg ht, if_neg ht]
            exact ⟨by first | rfl | trivial, by first | rfl | trivial⟩
        | ok r2 =>
          constructor
          · rcases (hfin [Request.mk (docURL did) [("format", fmt)],
                Request.mk (docURL did) [("format", fmt), ("confirm", t)]] r2).1
              with h | ⟨r3, fname, h⟩
            · left
              intro fs
              simp only [download_doc_export, ho1, hg, ho2]
              rw [if_neg ht]
              exact h fs
            · right
              refine ⟨r3, fname, ?_⟩
              intro fs
              simp only [download_doc_export, ho1, hg, ho2]
              rw [if_neg ht]
              exact h fs
          · intro fs
            simp only [download_doc_export, ho1, hg, ho2]
            rw [if_neg ht, if_neg ht]
            exact (hfin [Request.mk (docURL did) [("format", fmt)],
              Request.mk (docURL did) [("format", fmt), ("confirm", t)]] r2).2 fs

/-- The filesystem effect of one attempt, read off against the empty
filesystem. -/
def attemptEff (oracle : Request → Except String Response) (a : Attempt) : Eff :=
  ⟨(runAttempt oracle a emptyFS).1.dirs, (runAttempt oracle a emptyFS).1.files⟩

theorem runAttempt_fs (oracle : Request → Except String Response) (a : Attempt) :
    ∀ fs, (runAttempt oracle a fs).1 = (attemptEff oracle a).apply fs := by
  cases a with
  | drive fid outdir =>
    intro fs
    rcases (download_drive_shape oracle fid outdir).1 with h | ⟨r, fname, h⟩
    · simp only [runAttempt, attemptEff]
      rw [h fs, h emptyFS]
      rfl
    · simp only [runAttempt, attemptEff]
      rw [h fs, h emptyFS]
      exact persistAt_apply r fname outdir fs
  | doc did outdir fmt =>
    intro fs
    rcases (download_doc_shape oracle did outdir fmt).1 with h | ⟨r, fname, h⟩
    · simp only [runAttempt, attemptEff]
      rw [h fs, h emptyFS]
      rfl
    · simp only [runAttempt, attemptEff]
      rw [h fs, h emptyFS]
      exact persistAt_apply r fname outdir fs

theorem runAttempt_res (oracle : Request → Except String Response) (a : Attempt) :
    ∀ fs, (runAttempt oracle a fs).2 = (runAttempt oracle a emptyFS).2 := by
  cases a with
  | drive fid outdir =>
    intro fs
    simp only [runAttempt]
    exact ((download_drive_shape oracle fid outdir).2 fs).2
  | doc did outdir fmt =>
    intro fs
    simp only [runAttempt]
    exact ((download_doc_shape oracle did outdir fmt).2 fs).2

/-- The combined effect of a list of attempts. -/
def attemptsEff (oracle : Request → Except String Response) : List Attempt → Eff
  | [] => Eff.mk (fun _ => false) (fun _ => none)
  | a :: rest => (attemptsEff oracle rest).comp (attemptEff oracle a)

theorem runAttempts_fs_eff (oracle : Request → Except String Response) :
    ∀ (as : List Attempt) (fs : FS),
    (runAttempts oracle as fs).2 = (attemptsEff oracle as).apply fs := by
  intro as
  induction as with
  | nil =>
    intro fs
    rfl
  | cons a rest ih =>
    intro fs
    simp only [runAttempts, attemptsEff]
    rw [ih, runAttempt_fs, Eff.apply_apply]

theorem runAttempts_res (oracle : Request → Except String Response) :
    ∀ (as : List Attempt) (fs fs2 : FS),
    (runAttempts oracle as fs).1 = (runAttempts oracle as fs2).1 := by
  intro as
  induction as with
  | nil =>
    intro fs fs2
    rfl
  | cons a rest ih =>
    intro fs fs2
    simp only [runAttempts]
    rw [runAttempt_res oracle a fs, ← runAttempt_res oracle a fs2,
      ih (runAttempt oracle a fs).1 (runAttempt oracle a fs2).1]

/-- The combined effect of the whole download phase. -/
def phaseEff (oracle : Request → Except String Response) : List (String × Entry) → Eff
  | [] => Eff.mk (fun _ => false) (fun _ => none)
  | (_, e) :: rest => (phaseEff oracle rest).comp (attemptsEff oracle (attemptList e))

theorem downloadPhase_fs_eff (oracle : Request → Except String Response) :
    ∀ (m : List (String × Entry)) (fs : FS),
    (downloadPhase oracle m fs).2 = (phaseEff oracle m).apply fs := by
  intro m
  induction m with
  | nil =>
    intro fs
    rfl
  | cons ue rest ih =>
    intro fs
    match ue with
    | (u, e) =>
      simp only [downloadPhase, phaseEff]
      rw [ih, runAttempts_fs_eff, Eff.apply_apply]

theorem downloadPhase_res (oracle : Request → Except String Response) :
    ∀ (m : List (String × Entry)) (fs fs2 : FS),
    (downloadPhase oracle m fs).1 = (downloadPhase oracle m fs2).1 := by
  intro m
  induction m with
  | nil =>
    intro fs fs2
    rfl
  | cons ue rest ih =>
    intro fs fs2
    match ue with
    | (u, e) =>
      simp only [downloadPhase]
      rw [runAttempts_res oracle (attemptList e) fs fs2,
        ih (runAttempts oracle (attemptList e) fs).2 (runAttempts oracle (attemptList e) fs2).2]

theorem mainRun_fs_eff (ps : Nat → String → String) (pathOf : String → String)
    (oracle : Request → Except String Response) (urls : List String) (fs0 : FS) :
    (mainRun ps pathOf oracle urls fs0).fs
      = ((phaseEff oracle (crawlPhase ps pathOf urls 0 []).2).comp
          (Eff.mk (fun p => p == "resources") (fun _ => none))).apply fs0 := by
  show (downloadPhase oracle (crawlPhase ps pathOf urls 0 []).2 (mkdir "resources" fs0)).2 = _
  rw [downloadPhase_fs_eff, ← Eff.apply_apply]
  rfl

theorem finishDrive_ok_cases (reqs : List Request) (r : Response) (fid outdir : String)
    (fs : FS) (fname : String)
    (h : (finishDrive reqs r fid outdir fs).result = Except.ok fname) :
    fname = extract_filename r fid
    ∧ (finishDrive reqs r fid outdir fs).fs.files (pathJoin outdir fname) = some r.body := by
  rw [finishDrive] at h ⊢
  by_cases hst : statusErr r.status = true
  · rw [if_pos hst] at h
    simp at h
  · rw [if_neg hst] at h ⊢
    have hname : fname = extract_filename r fid := by
      simpa using h.symm
    subst hname
    exact ⟨rfl, persistAt_files_self r _ outdir fs⟩

/-- claim8 (confirmed): downloading the same identifier into the same output
directory a second time issues the same requests, returns the same result
and leaves the filesystem exactly as after the first download — the file at
the resolved path is overwritten in place, not duplicated — and consequently
running the whole pipeline a second time over the same URLs and responses
changes neither the output files nor the recorded attempts. -/
theorem claim8_idempotent (oracle : Request → Except String Response)
    (fid outdir : String) (fs : FS) (ps : Nat → String → String)
    (pathOf : String → String) (urls : List String) (fs0 : FS) :
    ((download_drive_file oracle fid outdir
        (download_drive_file oracle fid outdir fs).fs).requests
      = (download_drive_file oracle fid outdir fs).requests)
    ∧ ((download_drive_file oracle fid outdir
        (download_drive_file oracle fid outdir fs).fs).result
      = (download_drive_file oracle fid outdir fs).result)
    ∧ ((download_drive_file oracle fid outdir
        (download_drive_file oracle fid outdir fs).fs).fs
      = (download_drive_file oracle fid outdir fs).fs)
    ∧ (∀ fname, (download_drive_file oracle fid outdir fs).result = Except.ok fname →
        (download_drive_file oracle fid outdir fs).fs.files (pathJoin outdir fname) ≠ none)
    ∧ ((mainRun ps pathOf oracle urls (mainRun ps pathOf oracle urls fs0).fs).fs
      = (mainRun ps pathOf oracle urls fs0).fs)
    ∧ ((mainRun ps pathOf oracle urls (mainRun ps pathOf oracle urls fs0).fs).attempts
      = (mainRun ps pathOf oracle urls fs0).attempts)
    ∧ ((mainRun ps pathOf oracle urls (mainRun ps pathOf oracle urls fs0).fs).idMap
      = (mainRun ps pathOf oracle urls fs0).idMap) := by
  refine ⟨?_, ?_, ?_, ?_, ?_, ?_, rfl⟩
  · rw [((download_drive_shape oracle fid outdir).2 _).1,
      ← ((download_drive_shape oracle fid outdir).2 fs).1]
  · rw [((download_drive_shape oracle fid outdir).2 _).2,
      ← ((download_drive_shape oracle fid outdir).2 fs).2]
  · rcases (download_drive_shape oracle fid outdir).1 with h | ⟨r, fname, h⟩
    · rw [h ((download_drive_file oracle fid outdir fs).fs)]
    · rw [h ((download_drive_file oracle fid outdir fs).fs), h fs, persistAt_idem]
  · intro fname hok
    rcases download_drive_split oracle fid outdir fs with
      ⟨e2, heq⟩ | ⟨t, e2, heq⟩ | ⟨reqs, r, heq⟩
    · rw [heq] at hok
      simp at hok
    · rw [heq] at hok
      simp at hok
    · rw [heq] at hok ⊢
      obtain ⟨_, hfile⟩ := finishDrive_ok_cases reqs r fid outdir fs fname hok
      rw [hfile]
      intro hc
      exact absurd hc (by simp)
  · rw [mainRun_fs_eff, mainRun_fs_eff, Eff.apply_apply, Eff.comp_self]
  · show (downloadPhase oracle (crawlPhase ps pathOf urls 0 []).2
        (mkdir "resources" (mainRun ps pathOf oracle urls fs0).fs)).1
      = (downloadPhase oracle (crawlPhase ps pathOf urls 0 []).2 (mkdir "resources" fs0)).1
    exact downloadPhase_res oracle (crawlPhase ps pathOf urls 0 []).2 _ _

/-- A session that succeeds with a fixed body for every request. -/
def oracleOkBody : Request → Except String Response :=
  fun _ => Except.ok (Response.mk 200 [] [] [4, 5])

/-- claim8 witness: re-downloading against a session that always succeeds
leaves the file written by the first download in place with the same
content, and a successful result names a path that holds a file. -/
theorem claim8_idempotent_witness :
    ((download_drive_file oracleOkBody "F" "out"
        (download_drive_file oracleOkBody "F" "out" emptyFS).fs).fs
      = (download_drive_file oracleOkBody "F" "out" emptyFS).fs)
    ∧ ((download_drive_file oracleOkBody "F" "out" emptyFS).result = Except.ok "F")
    ∧ ((download_drive_file oracleOkBody "F" "out" emptyFS).fs.files (pathJoin "out" "F")
        ≠ none)
    ∧ ((mainRun psOne poWit oracleOkBody ["u"]
          (mainRun psOne poWit oracleOkBody ["u"] emptyFS).fs).fs
      = (mainRun psOne poWit oracleOkBody ["u"] emptyFS).fs) := by
  have hc := claim8_idempotent oracleOkBody "F" "out" emptyFS psOne poWit ["u"] emptyFS
  exact ⟨hc.2.2.1, rfl, hc.2.2.2.1 "F" rfl, hc.2.2.2.2.1⟩
